import Mathlib

/-!
Verification model of the `databricks_avator` conversational-avatar backend.

The Python sources are embedded shallowly:
* `backend/services/cache_service.py`  → `ResponseCache` (MD5-keyed TTL store),
* `backend/services/lip_sync_service.py` → `LipSync` (viseme generation),
* `backend/models/conversation.py`     → `ConversationState`,
* `backend/avatar_orchestrator.py`     → `Orchestrator.processTextInput` /
  `Orchestrator.processTextQuery`,
* `backend/main.py` (`/api/chat`)      → `chatEndpoint`,
* `app.py` (websocket variant)         → `AppVariant.processTurn`.

Machine-level details are made explicit: bytes are `Nat` below 256, 32-bit
arithmetic is `Nat` with `% 2^32`, wall-clock times and float durations are
exact rationals `ℚ`, and the external adapters (emotion classifier, language
model, speech synthesis) are oracle functions passed in as parameters.
Adapter invocations and outbound websocket events are recorded as explicit
traces so that claims about "which adapter ran" and "which events were
emitted" become statements about lists.
-/

/-! ## MD5 (`hashlib.md5(key.encode()).hexdigest()` from `cache_service.py`)

`ResponseCache._hash_key` hashes the raw key bytes with MD5 and uses the
lowercase hex digest as the dictionary key.  We implement MD5 over byte
lists (`Nat` < 256), RFC 1321 style. -/

namespace MD5

def m32 : Nat := 4294967296

def mask32 : Nat := 4294967295

def add32 (a b : Nat) : Nat := (a + b) % m32

def not32 (a : Nat) : Nat := mask32 - a

def rotl32 (x s : Nat) : Nat := ((x <<< s) % m32) ||| (x >>> (32 - s))

/-- The 64 round constants `K[i] = floor(|sin(i+1)| * 2^32)`. -/
def K : List Nat :=
  [3614090360, 3905402710, 606105819, 3250441966, 4118548399, 1200080426,
   2821735955, 4249261313, 1770035416, 2336552879, 4294925233, 2304563134,
   1804603682, 4254626195, 2792965006, 1236535329, 4129170786, 3225465664,
   643717713, 3921069994, 3593408605, 38016083, 3634488961, 3889429448,
   568446438, 3275163606, 4107603335, 1163531501, 2850285829, 4243563512,
   1735328473, 2368359562, 4294588738, 2272392833, 1839030562, 4259657740,
   2763975236, 1272893353, 4139469664, 3200236656, 681279174, 3936430074,
   3572445317, 76029189, 3654602809, 3873151461, 530742520, 3299628645,
   4096336452, 1126891415, 2878612391, 4237533241, 1700485571, 2399980690,
   4293915773, 2240044497, 1873313359, 4264355552, 2734768916, 1309151649,
   4149444226, 3174756917, 718787259, 3951481745]

/-- The per-round left-rotation amounts. -/
def S : List Nat :=
  [7, 12, 17, 22, 7, 12, 17, 22, 7, 12, 17, 22, 7, 12, 17, 22,
   5, 9, 14, 20, 5, 9, 14, 20, 5, 9, 14, 20, 5, 9, 14, 20,
   4, 11, 16, 23, 4, 11, 16, 23, 4, 11, 16, 23, 4, 11, 16, 23,
   6, 10, 15, 21, 6, 10, 15, 21, 6, 10, 15, 21, 6, 10, 15, 21]

/-- One MD5 round: `M` is the 16-word message schedule of the current block. -/
def md5Round (M : Nat → Nat) (st : Nat × Nat × Nat × Nat) (i : Nat) :
    Nat × Nat × Nat × Nat :=
  let (A, B, C, D) := st
  let F :=
    if i < 16 then (B &&& C) ||| (not32 B &&& D)
    else if i < 32 then (D &&& B) ||| (not32 D &&& C)
    else if i < 48 then B ^^^ C ^^^ D
    else C ^^^ (B ||| not32 D)
  let g :=
    if i < 16 then i
    else if i < 32 then (5 * i + 1) % 16
    else if i < 48 then (3 * i + 5) % 16
    else (7 * i) % 16
  let f := add32 (add32 (add32 F A) (K.getD i 0)) (M g)
  (D, add32 B (rotl32 f (S.getD i 0)), B, C)

/-- Process one 64-byte block (little-endian 32-bit words). -/
def md5Block (st : Nat × Nat × Nat × Nat) (chunk : List Nat) :
    Nat × Nat × Nat × Nat :=
  let M : Nat → Nat := fun j =>
    chunk.getD (4 * j) 0 + 256 * chunk.getD (4 * j + 1) 0 +
      65536 * chunk.getD (4 * j + 2) 0 + 16777216 * chunk.getD (4 * j + 3) 0
  let (A, B, C, D) := (List.range 64).foldl (md5Round M) st
  let (a, b, c, d) := st
  (add32 a A, add32 b B, add32 c C, add32 d D)

/-- Split a byte list into 64-byte chunks (fuel-indexed so that the kernel
can reduce it; the fuel `l.length` always suffices). -/
def chunks64Aux : Nat → List Nat → List (List Nat)
  | 0, _ => []
  | _, [] => []
  | fuel + 1, b :: rest =>
      (b :: rest).take 64 :: chunks64Aux fuel ((b :: rest).drop 64)

def chunks64 (l : List Nat) : List (List Nat) := chunks64Aux l.length l

/-- MD5 padding: `0x80`, zeros to 56 mod 64, then the 8-byte LE bit length. -/
def padMessage (msg : List Nat) : List Nat :=
  let ml := 8 * msg.length
  let zeros := List.replicate ((120 - ((msg.length + 1) % 64)) % 64) 0
  msg ++ [128] ++ zeros ++ (List.range 8).map (fun j => (ml >>> (8 * j)) % 256)

def md5Bytes (msg : List Nat) : Nat × Nat × Nat × Nat :=
  (chunks64 (padMessage msg)).foldl md5Block
    (1732584193, 4023233417, 2562383102, 271733878)

def hexDigit (n : Nat) : Char :=
  "0123456789abcdef".data.getD n '0'

def hexByte (b : Nat) : List Char := [hexDigit (b / 16), hexDigit (b % 16)]

/-- Little-endian hex of one 32-bit word. -/
def wordHex (w : Nat) : List Char :=
  ((List.range 4).map (fun j => hexByte ((w >>> (8 * j)) % 256))).flatten

/-- UTF-8 encoding of a single character (Python `str.encode()`). -/
def utf8Bytes (c : Char) : List Nat :=
  let n := c.toNat
  if n < 128 then [n]
  else if n < 2048 then [192 + n / 64, 128 + n % 64]
  else if n < 65536 then
    [224 + n / 4096, 128 + (n / 64) % 64, 128 + n % 64]
  else
    [240 + n / 262144, 128 + (n / 4096) % 64, 128 + (n / 64) % 64,
     128 + n % 64]

def strBytes (s : String) : List Nat := (s.data.map utf8Bytes).flatten

/-- `hashlib.md5(key.encode()).hexdigest()`. -/
def md5Hex (s : String) : String :=
  let (a, b, c, d) := md5Bytes (strBytes s)
  ⟨wordHex a ++ wordHex b ++ wordHex c ++ wordHex d⟩

end MD5

set_option maxRecDepth 100000

unseal Rat.sub Rat.add Rat.mul

/-! ## Python string primitives shared by the services

The relevant Python operations (`str.lower`, `str.strip`, `str.split`, the
regex class `\s`, `[a-zA-Z]`) are modelled character-exactly on the ASCII
range; every character outside it is removed by the `[^a-zA-Z\s]` filter in
the code paths below, so the ASCII restriction is not observable there. -/

namespace Py

/-- ASCII whitespace matched by the regex class `\s` and split by
`str.split()` / stripped by `str.strip()`. -/
def isPySpace (c : Char) : Bool :=
  c == ' ' || c == '\t' || c == '\n' || c == '\x0b' || c == '\x0c' || c == '\r'

/-- The regex class `[a-zA-Z]` (also Python `str.isalpha` on this domain). -/
def isAsciiLetter (c : Char) : Bool :=
  (97 ≤ c.toNat && c.toNat ≤ 122) || (65 ≤ c.toNat && c.toNat ≤ 90)

/-- `str.lower()` on ASCII (`Char.toLower` maps exactly `A`-`Z` down). -/
def pyLower (s : String) : List Char := s.data.map Char.toLower

/-- `str.strip()`: remove leading and trailing whitespace. -/
def pyStrip (l : List Char) : List Char :=
  ((l.dropWhile isPySpace).reverse.dropWhile isPySpace).reverse

/-- `str.split()`: split on whitespace runs, discarding empty words. -/
def splitWsAux : List Char → List Char → List (List Char)
  | [], acc => if acc.isEmpty then [] else [acc.reverse]
  | c :: rest, acc =>
      if isPySpace c then
        if acc.isEmpty then splitWsAux rest []
        else acc.reverse :: splitWsAux rest []
      else splitWsAux rest (c :: acc)

def splitWs (l : List Char) : List (List Char) := splitWsAux l []

/-- `' '.join(words)`. -/
def joinSpace : List (List Char) → List Char
  | [] => []
  | [w] => w
  | w :: ws => w ++ ' ' :: joinSpace ws

end Py

/-! ## Viseme generator (`backend/services/lip_sync_service.py`)

Durations and timestamps are exact rationals; `round(x, 3)` becomes
rounding to an integer number of thousandths. -/

namespace LipSync

/-- The `PHONEME_TO_VISEME` table of `LipSyncService`. -/
def PHONEME_TO_VISEME : List (String × String) :=
  [("a", "AA"), ("e", "E"), ("i", "I"), ("o", "O"), ("u", "U"),
   ("b", "PP"), ("p", "PP"), ("m", "PP"),
   ("f", "FF"), ("v", "FF"),
   ("th", "TH"),
   ("d", "DD"), ("t", "DD"), ("n", "DD"),
   ("k", "kk"), ("g", "kk"),
   ("s", "SS"), ("z", "SS"),
   ("sh", "CH"), ("ch", "CH"), ("j", "CH"),
   ("r", "RR"),
   ("l", "DD"),
   ("w", "O"),
   ("y", "I"),
   ("h", "sil"),
   (" ", "sil")]

/-- The `VISEME_BLEND_SHAPES` table of `LipSyncService`. -/
def VISEME_BLEND_SHAPES : List (String × String) :=
  [("sil", "viseme_sil"), ("PP", "viseme_PP"), ("FF", "viseme_FF"),
   ("TH", "viseme_TH"), ("DD", "viseme_DD"), ("kk", "viseme_kk"),
   ("CH", "viseme_CH"), ("SS", "viseme_SS"), ("RR", "viseme_RR"),
   ("AA", "viseme_aa"), ("E", "viseme_E"), ("I", "viseme_I"),
   ("O", "viseme_O"), ("U", "viseme_U")]

/-- Membership test `phoneme in PHONEME_TO_VISEME`. -/
def tableMem (p : String) : Bool := (PHONEME_TO_VISEME.lookup p).isSome

/-- Dictionary access `PHONEME_TO_VISEME.get(phoneme, 'sil')`. -/
def visemeOf (p : String) : String := (PHONEME_TO_VISEME.lookup p).getD "sil"

/-- Dictionary access `VISEME_BLEND_SHAPES.get(code, 'viseme_sil')`. -/
def blendOf (v : String) : String :=
  (VISEME_BLEND_SHAPES.lookup v).getD "viseme_sil"

/-- Models `LipSyncService._clean_text`:
`re.sub(r'[^a-zA-Z\s]', '', text.lower())` then `' '.join(clean.split())`. -/
def clean_text (s : String) : List Char :=
  Py.joinSpace (Py.splitWs
    ((Py.pyLower s).filter (fun c => Py.isAsciiLetter c || Py.isPySpace c)))

/-- Two-character lookahead against the digraph set `['th', 'sh', 'ch']`. -/
def isDigraph (c₁ c₂ : Char) : Bool :=
  (c₁ == 't' && c₂ == 'h') || (c₁ == 's' && c₂ == 'h') ||
    (c₁ == 'c' && c₂ == 'h')

/-- Single-character step of `_text_to_phonemes`: a table key is emitted as
itself, an alphabetic non-key defaults to `'a'`, anything else is dropped. -/
def singleUnit (c : Char) : List String :=
  if tableMem (String.mk [c]) then [String.mk [c]]
  else if Py.isAsciiLetter c then ["a"]
  else []

/-- Models `LipSyncService._text_to_phonemes`: the left-to-right scan with
the greedy digraph test (the `i < len(text) - 1` guard is the two-element
pattern). -/
def text_to_phonemes : List Char → List String
  | [] => []
  | [c] => singleUnit c
  | c₁ :: c₂ :: rest =>
      if isDigraph c₁ c₂ then String.mk [c₁, c₂] :: text_to_phonemes rest
      else singleUnit c₁ ++ text_to_phonemes (c₂ :: rest)

/-- One timed mouth-shape interval; `stop` models the JSON field `"end"`. -/
structure Viseme where
  start : ℚ
  stop : ℚ
  value : String
  blendShape : String
deriving Repr, DecidableEq

/-- Python `round(x, 3)` on exact rationals: round to a thousandth. -/
def round3 (q : ℚ) : ℚ := (round (q * 1000) : ℤ) / 1000

/-- The emission loop of `_phonemes_to_visemes`: `t` is `current_time`; the
trailing 0.2s silence is appended when the phoneme list is exhausted. -/
def visemeLoop (d : ℚ) : List String → ℚ → List Viseme
  | [], t => [⟨round3 t, round3 (t + 1/5), "sil", "viseme_sil"⟩]
  | p :: rest, t =>
      ⟨round3 t, round3 (t + d), visemeOf p, blendOf (visemeOf p)⟩ ::
        visemeLoop d rest (t + d)

/-- Models `LipSyncService._phonemes_to_visemes`: equal slices of
`total_duration` when it is positive, a fixed 80ms (= 2/25 s) estimate
otherwise. -/
def phonemes_to_visemes (ps : List String) (total_duration : ℚ) :
    List Viseme :=
  if ps.isEmpty then []
  else
    let d := if total_duration > 0 then total_duration / ps.length else 2/25
    visemeLoop d ps 0

/-- Models `LipSyncService.generate_visemes` (clean, segment, time). -/
def generate_visemes (text : String) (audio_duration : ℚ) : List Viseme :=
  phonemes_to_visemes (text_to_phonemes (clean_text text)) audio_duration

end LipSync

/-! ## Association-list primitives for Python dicts

Python 3 dicts preserve insertion order; assigning to an existing key keeps
its position, `del` removes it. -/

def lookupA {α : Type} : List (String × α) → String → Option α
  | [], _ => none
  | (k', v) :: rest, k => if k' = k then some v else lookupA rest k

def insertA {α : Type} : List (String × α) → String → α → List (String × α)
  | [], k, v => [(k, v)]
  | (k', v') :: rest, k, v =>
      if k' = k then (k, v) :: rest else (k', v') :: insertA rest k v

def eraseA {α : Type} : List (String × α) → String → List (String × α)
  | [], _ => []
  | (k', v') :: rest, k =>
      if k' = k then rest else (k', v') :: eraseA rest k

/-! ## Response cache (`backend/services/cache_service.py`)

The stored payload is the reply text (the orchestrator always stores
`{"text": response_text}`, a payload with this one field); `time.time()`
is an explicit rational parameter `now`. -/

/-- One stored entry: `{"value": ..., "timestamp": ..., "original_key": ...}`. -/
structure CacheEntry where
  value : String
  timestamp : ℚ
  original_key : String
deriving Repr, DecidableEq

/-- The `ResponseCache` object; `cache` is the dict keyed by MD5 hex digests
in insertion order. -/
structure ResponseCache where
  cache : List (String × CacheEntry)
  ttl_seconds : ℚ
  max_size : Nat
  hits : Nat
  misses : Nat
deriving Repr, DecidableEq

/-- `ResponseCache.__init__` (defaults `ttl_seconds=3600`, `max_size=1000`). -/
def ResponseCache.init (ttl : ℚ) (maxSize : Nat) : ResponseCache :=
  ⟨[], ttl, maxSize, 0, 0⟩

/-- Models `ResponseCache.get`: hash the raw key, check freshness strictly
(`now - timestamp < ttl`), lazily delete an expired entry, count a miss on
absence or expiry.  Returns the result together with the mutated cache. -/
def ResponseCache.get (c : ResponseCache) (now : ℚ) (key : String) :
    Option String × ResponseCache :=
  let hashed_key := MD5.md5Hex key
  match lookupA c.cache hashed_key with
  | some entry =>
      if now - entry.timestamp < c.ttl_seconds then
        (some entry.value, { c with hits := c.hits + 1 })
      else
        (none, { c with cache := eraseA c.cache hashed_key,
                        misses := c.misses + 1 })
  | none => (none, { c with misses := c.misses + 1 })

/-- Timestamp of the entry stored under `k` (the sort key
`lambda k: self.cache[k]["timestamp"]`; keys fed to it always exist). -/
def tsOf (cache : List (String × CacheEntry)) (k : String) : ℚ :=
  ((lookupA cache k).map CacheEntry.timestamp).getD 0

/-- Models `ResponseCache._evict_oldest`: sort the keys by entry timestamp,
drop the oldest `max(1, count // 10)`.  (Deleting a batch of distinct keys
one by one equals filtering them out.) -/
def ResponseCache.evictOldest (c : ResponseCache) : ResponseCache :=
  if c.cache.isEmpty then c
  else
    let sorted_keys := (c.cache.map Prod.fst).mergeSort
      (fun k₁ k₂ => decide (tsOf c.cache k₁ ≤ tsOf c.cache k₂))
    let num_to_remove := max 1 (sorted_keys.length / 10)
    { c with cache :=
        c.cache.filter (fun e => !(sorted_keys.take num_to_remove).contains e.1) }

/-- Models `ResponseCache.set`: evict when `len(cache) >= max_size`, then
store under the hashed key with the truncated original key (`key[:100]`). -/
def ResponseCache.set (c : ResponseCache) (now : ℚ) (key value : String) :
    ResponseCache :=
  let c' := if c.max_size ≤ c.cache.length then c.evictOldest else c
  { c' with cache :=
      insertA c'.cache (MD5.md5Hex key) ⟨value, now, key.take 100⟩ }

/-- A concrete two-entry store at its size bound (`max_size = 2`), used to
exercise the eviction path on explicit data. -/
def sampleCache : ResponseCache :=
  ⟨[(MD5.md5Hex "a", ⟨"ra", 0, "a"⟩), (MD5.md5Hex "b", ⟨"rb", 1, "b"⟩)],
   3600, 2, 0, 0⟩

/-! ## Conversation state (`backend/models/conversation.py`) -/

/-- One appended turn (timestamps are rationals standing for wall-clock). -/
structure Turn where
  user_message : String
  assistant_message : String
  user_emotion : Option String
  timestamp : ℚ
deriving Repr, DecidableEq

structure ConversationState where
  connection_id : String
  max_history : Nat
  history : List Turn
  created_at : ℚ
  last_activity : ℚ
deriving Repr, DecidableEq

/-- `ConversationState.__init__` (default `max_history=10`). -/
def ConversationState.init (cid : String) (now : ℚ) : ConversationState :=
  ⟨cid, 10, [], now, now⟩

/-- Python slice `l[-n:]` (note `l[-0:]` is all of `l`). -/
def pySliceLast {α : Type} (n : Nat) (l : List α) : List α :=
  if n = 0 then l else l.drop (l.length - n)

/-- Models `ConversationState.add_turn`: append, bump `last_activity`, trim
to the last `max_history` entries when the bound is exceeded. -/
def ConversationState.add_turn (cs : ConversationState) (now : ℚ)
    (user_message assistant_message : String) (user_emotion : Option String) :
    ConversationState :=
  let history' :=
    cs.history ++ [⟨user_message, assistant_message, user_emotion, now⟩]
  { cs with
    history := if cs.max_history < history'.length
               then pySliceLast cs.max_history history' else history',
    last_activity := now }

/-! ## Turn orchestrator (`backend/avatar_orchestrator.py`)

The three external adapters are oracles; each processed turn returns the
new orchestrator state, the chronological list of adapter invocations and
the chronological list of events sent over the websocket. -/

structure EmotionResult where
  emotion : String
  confidence : ℚ
deriving Repr, DecidableEq

structure TTSResult where
  audio : List Nat
  duration : ℚ
deriving Repr, DecidableEq

/-- The external collaborators, as pure oracles. -/
structure Adapters where
  emotionOf : String → EmotionResult
  llm : String → List Turn → String → String
  tts : String → TTSResult

/-- Outbound websocket events (`websocket.send_json` payloads). -/
inductive Event
  | emotionDetected (emotion : String) (confidence : ℚ)
  | responseText (text : String)
  | lipSyncData (visemes : List LipSync.Viseme) (duration : ℚ)
  | audioData (audio : String) (format : String)
  | responseComplete
  | errorEvent (message : String)
deriving Repr, DecidableEq

/-- Recorded adapter invocations, in call order. -/
inductive AdapterCall
  | emotionCall (text : String)
  | llmCall (user_message : String) (history : List Turn) (emotion : String)
  | ttsCall (text : String)
deriving Repr, DecidableEq

def isLlmCall : AdapterCall → Bool
  | .llmCall _ _ _ => true
  | _ => false

def isEmotionCall : AdapterCall → Bool
  | .emotionCall _ => true
  | _ => false

def isLipSyncEvent : Event → Bool
  | .lipSyncData _ _ => true
  | _ => false

def isAudioDataEvent : Event → Bool
  | .audioData _ _ => true
  | _ => false

def isErrorEvent : Event → Bool
  | .errorEvent _ => true
  | _ => false

/-- Standard base64 of a byte list (`base64.b64encode`). -/
def b64Char (n : Nat) : Char :=
  "ABCDEFGHIJKLMNOPQRSTUVWXYZabcdefghijklmnopqrstuvwxyz0123456789+/".data.getD
    n 'A'

def base64Chars : List Nat → List Char
  | [] => []
  | [b₁] => [b64Char (b₁ / 4), b64Char (b₁ % 4 * 16), '=', '=']
  | [b₁, b₂] =>
      [b64Char (b₁ / 4), b64Char (b₁ % 4 * 16 + b₂ / 16),
       b64Char (b₂ % 16 * 4), '=']
  | b₁ :: b₂ :: b₃ :: rest =>
      b64Char (b₁ / 4) :: b64Char (b₁ % 4 * 16 + b₂ / 16) ::
        b64Char (b₂ % 16 * 4 + b₃ / 64) :: b64Char (b₃ % 64) ::
          base64Chars rest

def b64String (bs : List Nat) : String := ⟨base64Chars bs⟩

/-- Mutable orchestrator state: the optional shared cache
(`settings.ENABLE_RESPONSE_CACHE` may leave it `None`) and the
per-connection conversation map. -/
structure OrchestratorState where
  cache : Option ResponseCache
  conversations : List (String × ConversationState)
deriving Repr, DecidableEq

structure TurnResult where
  state : OrchestratorState
  calls : List AdapterCall
  events : List Event
deriving Repr, DecidableEq

/-- The cache key computed by the orchestrator: `text.lower().strip()`. -/
def cacheKeyOf (text : String) : String := ⟨Py.pyStrip (Py.pyLower text)⟩

/-- Models `AvatarOrchestrator.process_text_input` (the websocket turn):
get-or-create conversation, cache lookup on the normalized key, emotion
detection (always), cached reply or LLM call plus cache store,
unconditional history append, then TTS, lip sync and the event tail. -/
def processTextInput (ad : Adapters) (st : OrchestratorState) (now : ℚ)
    (text connection_id : String) : TurnResult :=
  let conversation := (lookupA st.conversations connection_id).getD
    (ConversationState.init connection_id now)
  let cache_key := cacheKeyOf text
  let (cached_response, cache₁) :=
    match st.cache with
    | some c => let r := c.get now cache_key; (r.1, some r.2)
    | none => (none, none)
  let emotion_data := ad.emotionOf text
  let (response_text, cache₂, llmCalls) :=
    match cached_response with
    | some cached_text => (cached_text, cache₁, ([] : List AdapterCall))
    | none =>
        let reply := ad.llm text conversation.history emotion_data.emotion
        (reply,
         (match cache₁ with
          | some c => some (c.set now cache_key reply)
          | none => none),
         [AdapterCall.llmCall text conversation.history emotion_data.emotion])
  let conversation' :=
    conversation.add_turn now text response_text (some emotion_data.emotion)
  let tts_result := ad.tts response_text
  let visemes := LipSync.generate_visemes response_text tts_result.duration
  { state := ⟨cache₂, insertA st.conversations connection_id conversation'⟩
    calls := AdapterCall.emotionCall text ::
      llmCalls ++ [AdapterCall.ttsCall response_text]
    events :=
      [.emotionDetected emotion_data.emotion emotion_data.confidence,
       .responseText response_text,
       .lipSyncData visemes tts_result.duration,
       .audioData (b64String tts_result.audio) "mp3",
       .responseComplete] }

/-- Aggregate result of the stateless HTTP path. -/
structure QueryResult where
  response : String
  emotion : String
  cached : Bool
  audio : Option String
deriving Repr, DecidableEq

/-- Models `AvatarOrchestrator.process_text_query` (HTTP, no history, no
intermediate events): emotion first, then cache, then LLM + store on miss,
optional audio. -/
def processTextQuery (ad : Adapters) (st : OrchestratorState) (now : ℚ)
    (text : String) (include_audio : Bool) :
    QueryResult × OrchestratorState × List AdapterCall :=
  let emotion_data := ad.emotionOf text
  let cache_key := cacheKeyOf text
  let (cached, cache₁) :=
    match st.cache with
    | some c => let r := c.get now cache_key; (r.1, some r.2)
    | none => (none, none)
  let (response_text, cache₂, llmCalls) :=
    match cached with
    | some t => (t, cache₁, ([] : List AdapterCall))
    | none =>
        let reply := ad.llm text [] emotion_data.emotion
        (reply,
         (match cache₁ with
          | some c => some (c.set now cache_key reply)
          | none => none),
         [AdapterCall.llmCall text [] emotion_data.emotion])
  let ttsCalls := if include_audio then [AdapterCall.ttsCall response_text]
    else []
  let audio := if include_audio
    then some (b64String (ad.tts response_text).audio) else none
  (⟨response_text, emotion_data.emotion, cached.isSome, audio⟩,
   ⟨cache₂, st.conversations⟩,
   AdapterCall.emotionCall text :: llmCalls ++ ttsCalls)

/-- Models the `POST /api/chat` handler of `backend/main.py`: reject a
missing or empty `text` with a 400 client error before any orchestrator
work (`if not text: raise HTTPException(400, ...)`). -/
def chatEndpoint (ad : Adapters) (st : OrchestratorState) (now : ℚ)
    (request_text : Option String) (include_audio : Bool) :
    Except Nat (QueryResult × OrchestratorState × List AdapterCall) :=
  match request_text with
  | none => .error 400
  | some t =>
      if t = "" then .error 400
      else .ok (processTextQuery ad st now t include_audio)

/-! ## The `app.py` websocket variant

`app.py` duplicates the pipeline with its own simpler services: a cache
keyed by `key.lower().strip()` directly (no hashing, no lazy deletion), a
lip-sync service without digraphs or trailing silence, and a TTS branch
that silently skips `lip_sync_data` and `audio_data` when no audio bytes
were produced. -/

namespace AppVariant

/-- The `ResponseCache` of `app.py` (stores the reply string; no counters,
no max size, no deletion on expiry). -/
structure AppCache where
  cache : List (String × (String × ℚ))
  ttl : ℚ
deriving Repr, DecidableEq

def appKey (k : String) : String := ⟨Py.pyStrip (Py.pyLower k)⟩

def AppCache.get (c : AppCache) (now : ℚ) (key : String) : Option String :=
  match lookupA c.cache (appKey key) with
  | some (v, t) => if now - t < c.ttl then some v else none
  | none => none

def AppCache.set (c : AppCache) (now : ℚ) (key value : String) : AppCache :=
  { c with cache := insertA c.cache (appKey key) (value, now) }

/-- The `PHONEME_TO_VISEME` table of `app.py` (no digraphs, no defaults
beyond `'sil'`). -/
def APP_PHONEME_TO_VISEME : List (String × String) :=
  [("a", "AA"), ("e", "E"), ("i", "I"), ("o", "O"), ("u", "U"),
   ("b", "PP"), ("p", "PP"), ("m", "PP"),
   ("f", "FF"), ("v", "FF"),
   ("d", "DD"), ("t", "DD"), ("n", "DD"),
   ("k", "kk"), ("g", "kk"),
   ("s", "SS"), ("z", "SS"),
   ("r", "RR"), ("l", "DD"),
   (" ", "sil")]

def appLoop (d : ℚ) : List Char → ℚ → List LipSync.Viseme
  | [], _ => []
  | c :: rest, t =>
      ⟨LipSync.round3 t, LipSync.round3 (t + d),
       (APP_PHONEME_TO_VISEME.lookup (String.mk [c])).getD "sil", ""⟩ ::
        appLoop d rest (t + d)

/-- `app.py` `LipSyncService.generate_visemes`: each cleaned character is
one unit, no whitespace collapsing, no trailing silence (the model reuses
`LipSync.Viseme` with an empty `blendShape`, which `app.py` does not emit). -/
def appGenerateVisemes (text : String) (duration : ℚ) :
    List LipSync.Viseme :=
  let clean := (Py.pyLower text).filter
    (fun c => Py.isAsciiLetter c || Py.isPySpace c)
  if clean.isEmpty then []
  else appLoop (if duration > 0 then duration / clean.length else 2/25)
    clean 0

structure AppTurnResult where
  cache : AppCache
  calls : List AdapterCall
  events : List Event
deriving Repr, DecidableEq

/-- Models one `text_input` turn of the `app.py` websocket handler.
`tts_available` is the module flag `TTS_AVAILABLE`; the `app.py` LLM takes
no history, recorded as an empty history in the call trace.  Note the
`if audio_data:` guard: empty synthesized audio skips both `lip_sync_data`
and `audio_data`. -/
def processTurn (ad : Adapters) (tts_available : Bool) (c : AppCache)
    (now : ℚ) (user_text : String) : AppTurnResult :=
  let emotion_data := ad.emotionOf user_text
  let cached := c.get now user_text
  let (response_text, c', llmCalls) :=
    match cached with
    | some r => (r, c, ([] : List AdapterCall))
    | none =>
        let r := ad.llm user_text [] emotion_data.emotion
        (r, c.set now user_text r,
         [AdapterCall.llmCall user_text [] emotion_data.emotion])
  let (ttsCalls, ttsEvents) :=
    if tts_available then
      let audio := (ad.tts response_text).audio
      ([AdapterCall.ttsCall response_text],
       if audio.isEmpty then ([] : List Event)
       else
         let word_count := (Py.splitWs response_text.data).length
         let duration := (word_count : ℚ) / 150 * 60
         [Event.lipSyncData (appGenerateVisemes response_text duration)
            duration,
          Event.audioData (b64String audio) "mp3"])
    else ([], [])
  { cache := c'
    calls := AdapterCall.emotionCall user_text :: llmCalls ++ ttsCalls
    events :=
      Event.emotionDetected emotion_data.emotion emotion_data.confidence ::
        Event.responseText response_text :: ttsEvents ++
          [Event.responseComplete] }

end AppVariant

/-! ## Concrete fixtures used by witnesses and counterexamples -/

/-- Deterministic sample adapters: a fixed emotion, an echoing language
model, and a synthesizer producing three bytes of audio of one second. -/
def sampleAdapters : Adapters :=
  ⟨fun _ => ⟨"neutral", 3/5⟩,
   fun t _ _ => String.append "re: " t,
   fun _ => ⟨[77, 97, 110], 1⟩⟩

/-- Sample adapters whose speech synthesis always fails (empty bytes,
duration 0). -/
def sampleAdaptersNoAudio : Adapters :=
  ⟨fun _ => ⟨"neutral", 3/5⟩,
   fun t _ _ => String.append "re: " t,
   fun _ => ⟨[], 0⟩⟩

/-- A store already holding a fresh reply for the normalized key
`"hello"` (inserted at time 0). -/
def hitCache : ResponseCache :=
  ⟨[(MD5.md5Hex "hello", ⟨"cached", 0, "hello"⟩)], 3600, 1000, 0, 0⟩

/-- An empty conversation for connection `"c1"`, created at time 0. -/
def emptyConv : ConversationState := ⟨"c1", 10, [], 0, 0⟩

/-! # Theorems -/

/-- Sanity anchor for the hash implementation (standard known digest). -/
theorem md5Hex_hello :
    MD5.md5Hex "hello" = "5d41402abc4b2a76b9719d911017c592" := by decide

/-! ## Normalized-text character facts (for the segmentation claims) -/

theorem splitWsAux_chars (l : List Char) :
    ∀ (acc : List Char),
    (∀ c ∈ l, (Py.isAsciiLetter c || Py.isPySpace c) = true) →
    (∀ c ∈ acc, Py.isAsciiLetter c = true) →
    ∀ w ∈ Py.splitWsAux l acc, ∀ c ∈ w, Py.isAsciiLetter c = true := by
  induction l with
  | nil =>
      intro acc _ hacc w hw c hc
      simp only [Py.splitWsAux] at hw
      by_cases he : acc.isEmpty <;> simp [he] at hw
      subst hw
      exact hacc c (List.mem_reverse.mp hc)
  | cons a rest ih =>
      intro acc hl hacc w hw c hc
      simp only [Py.splitWsAux] at hw
      by_cases hsp : Py.isPySpace a
      · by_cases he : acc.isEmpty
        · simp only [hsp, he, if_true] at hw
          exact ih [] (fun c hc => hl c (List.mem_cons_of_mem _ hc))
            (by simp) w hw c hc
        · simp [hsp, he] at hw
          rcases hw with hw | hw
          · subst hw; exact hacc c (List.mem_reverse.mp hc)
          · exact ih [] (fun c hc => hl c (List.mem_cons_of_mem _ hc))
              (by simp) w hw c hc
      · simp [hsp] at hw
        refine ih (a :: acc) (fun c hc => hl c (List.mem_cons_of_mem _ hc))
          ?_ w hw c hc
        intro c hc
        rcases List.mem_cons.mp hc with hc | hc
        · subst hc
          have := hl c (List.mem_cons_self _ _)
          simp only [Bool.or_eq_true] at this
          rcases this with h | h
          · exact h
          · exact absurd h (by simpa using hsp)
        · exact hacc c hc

theorem joinSpace_chars (ws : List (List Char)) :
    (∀ w ∈ ws, ∀ c ∈ w, Py.isAsciiLetter c = true) →
    ∀ c ∈ Py.joinSpace ws, Py.isAsciiLetter c = true ∨ c = ' ' := by
  induction ws with
  | nil => intro _ c hc; simp [Py.joinSpace] at hc
  | cons w ws ih =>
      intro hws c hc
      cases ws with
      | nil =>
          exact Or.inl (hws w (List.mem_cons_self _ _) c
            (by simpa [Py.joinSpace] using hc))
      | cons w' ws' =>
          simp only [Py.joinSpace, List.mem_append, List.mem_cons] at hc
          rcases hc with hc | hc | hc
          · exact Or.inl (hws w (List.mem_cons_self _ _) c hc)
          · exact Or.inr hc
          · exact ih (fun v hv => hws v (List.mem_cons_of_mem _ hv)) c hc

/-- Every character of the normalized text is an ASCII letter or a single
space. -/
theorem clean_text_chars (s : String) :
    ∀ c ∈ LipSync.clean_text s, Py.isAsciiLetter c = true ∨ c = ' ' := by
  intro c hc
  unfold LipSync.clean_text Py.splitWs at hc
  refine joinSpace_chars _ ?_ c hc
  intro w hw d hd
  refine splitWsAux_chars _ [] ?_ (by simp) w hw d hd
  intro e he
  exact (List.mem_filter.mp he).2

/-! ## Segmentation facts (`_text_to_phonemes`) -/

/-- A normalized character (letter or space) always yields exactly one unit
of one character. -/
theorem singleUnit_total (c : Char)
    (h : Py.isAsciiLetter c = true ∨ c = ' ') :
    ((LipSync.singleUnit c).map String.length).sum = 1 ∧
    ∀ u ∈ LipSync.singleUnit c, u.length = 1 := by
  by_cases ht : LipSync.tableMem (String.mk [c])
  · refine ⟨by simp [LipSync.singleUnit, ht, String.length], ?_⟩
    intro u hu
    simp [LipSync.singleUnit, ht] at hu
    subst hu
    simp [String.length]
  · rcases h with h | h
    · refine ⟨by simp [LipSync.singleUnit, ht, h, String.length], ?_⟩
      intro u hu
      simp [LipSync.singleUnit, ht, h] at hu
      subst hu
      rfl
    · subst h
      exact absurd (by decide) ht

/-- Totality of the greedy scan on normalized text: the emitted units
consume every character exactly once (unit sizes sum to the text length),
each unit consumes one or two characters, and only the three digraphs
consume two. -/
theorem text_to_phonemes_total (t : List Char)
    (h : ∀ c ∈ t, Py.isAsciiLetter c = true ∨ c = ' ') :
    ((LipSync.text_to_phonemes t).map String.length).sum = t.length ∧
    ∀ u ∈ LipSync.text_to_phonemes t,
      (u.length = 1 ∨ u.length = 2) ∧
      (u.length = 2 → u = "th" ∨ u = "sh" ∨ u = "ch") := by
  induction t using LipSync.text_to_phonemes.induct with
  | case1 => simp [LipSync.text_to_phonemes]
  | case2 c =>
      have h1 := singleUnit_total c (h c (by simp))
      refine ⟨by simpa [LipSync.text_to_phonemes] using h1.1, ?_⟩
      intro u hu
      have hu1 := h1.2 u (by simpa [LipSync.text_to_phonemes] using hu)
      exact ⟨Or.inl hu1, by omega⟩
  | case3 c₁ c₂ rest hdi ih =>
      have hrest : ∀ c ∈ rest, Py.isAsciiLetter c = true ∨ c = ' ' := by
        intro c hc
        exact h c (by simp [hc])
      obtain ⟨ihs, ihm⟩ := ih hrest
      have hstep : LipSync.text_to_phonemes (c₁ :: c₂ :: rest) =
          String.mk [c₁, c₂] :: LipSync.text_to_phonemes rest := by
        simp [LipSync.text_to_phonemes, hdi]
      constructor
      · simp only [hstep, List.map_cons, List.sum_cons, ihs]
        simp [String.length]
        omega
      · intro u hu
        rw [hstep, List.mem_cons] at hu
        rcases hu with hu | hu
        · subst hu
          have hl2 : (String.mk [c₁, c₂]).length = 2 := by simp [String.length]
          refine ⟨Or.inr hl2, fun _ => ?_⟩
          have hcases : (c₁ = 't' ∧ c₂ = 'h') ∨ (c₁ = 's' ∧ c₂ = 'h') ∨
              (c₁ = 'c' ∧ c₂ = 'h') := by
            simpa [LipSync.isDigraph, Bool.or_eq_true, Bool.and_eq_true,
              beq_iff_eq, or_assoc] using hdi
          rcases hcases with ⟨rfl, rfl⟩ | ⟨rfl, rfl⟩ | ⟨rfl, rfl⟩
          · exact Or.inl (by decide)
          · exact Or.inr (Or.inl (by decide))
          · exact Or.inr (Or.inr (by decide))
        · exact ihm u hu
  | case4 c₁ c₂ rest hdi ih =>
      have htail : ∀ c ∈ c₂ :: rest, Py.isAsciiLetter c = true ∨ c = ' ' := by
        intro c hc
        exact h c (by simp [List.mem_cons] at hc ⊢; tauto)
      obtain ⟨ihs, ihm⟩ := ih htail
      have h1 := singleUnit_total c₁ (h c₁ (by simp))
      have hstep : LipSync.text_to_phonemes (c₁ :: c₂ :: rest) =
          LipSync.singleUnit c₁ ++ LipSync.text_to_phonemes (c₂ :: rest) := by
        simp [LipSync.text_to_phonemes, hdi]
      constructor
      · rw [hstep, List.map_append, List.sum_append, ihs, h1.1]
        simp
        omega
      · intro u hu
        rw [hstep, List.mem_append] at hu
        rcases hu with hu | hu
        · have := h1.2 u hu
          exact ⟨Or.inl this, by omega⟩
        · exact ihm u hu

/-- A list of nonempty strings has no more elements than total characters. -/
theorem count_le_sum (l : List String) (h : ∀ u ∈ l, 1 ≤ u.length) :
    l.length ≤ (l.map String.length).sum := by
  induction l with
  | nil => simp
  | cons u rest ih =>
      simp only [List.map_cons, List.sum_cons, List.length_cons]
      have h1 := h u (List.mem_cons_self _ _)
      have h2 := ih (fun v hv => h v (List.mem_cons_of_mem _ hv))
      omega

/-- C2.  Segmentation scans the normalized text greedily: `th`/`sh`/`ch`
are consumed as single two-character units and every other normalized
character as a one-character unit, so the unit sizes sum to the normalized
length (no character is dropped or double-consumed), the number of
iterations/units is at most the length (the cursor advances by ≥ 1 each
step), alphabetic characters missing from the table (`c`, `q`, `x`) yield
the default vowel unit `"a"`, input `"th"` yields the single TH-class
unit, and `"cat"` yields exactly three units. -/
theorem claim2_segmentation_covers_letters (s : String) :
    (((LipSync.text_to_phonemes (LipSync.clean_text s)).map
        String.length).sum = (LipSync.clean_text s).length) ∧
    (∀ u ∈ LipSync.text_to_phonemes (LipSync.clean_text s),
        (u.length = 1 ∨ u.length = 2) ∧
        (u.length = 2 → u = "th" ∨ u = "sh" ∨ u = "ch")) ∧
    ((LipSync.text_to_phonemes (LipSync.clean_text s)).length ≤
        (LipSync.clean_text s).length) ∧
    LipSync.text_to_phonemes (LipSync.clean_text "th") = ["th"] ∧
    LipSync.visemeOf "th" = "TH" ∧
    LipSync.text_to_phonemes (LipSync.clean_text "cat") = ["a", "a", "t"] ∧
    LipSync.singleUnit 'c' = ["a"] ∧
    LipSync.singleUnit 'q' = ["a"] ∧
    LipSync.singleUnit 'x' = ["a"] := by
  obtain ⟨hsum, hmem⟩ :=
    text_to_phonemes_total (LipSync.clean_text s) (clean_text_chars s)
  refine ⟨hsum, hmem, ?_, by decide, by decide, by decide, by decide,
    by decide, by decide⟩
  calc (LipSync.text_to_phonemes (LipSync.clean_text s)).length
      ≤ ((LipSync.text_to_phonemes (LipSync.clean_text s)).map
          String.length).sum :=
        count_le_sum _ (fun u hu => by
          rcases (hmem u hu).1 with h | h <;> omega)
    _ = (LipSync.clean_text s).length := hsum

/-- Non-empty normalized text yields a non-empty unit list. -/
theorem text_to_phonemes_ne_nil (s : String)
    (h : LipSync.clean_text s ≠ []) :
    LipSync.text_to_phonemes (LipSync.clean_text s) ≠ [] := by
  intro hnil
  obtain ⟨hsum, _⟩ :=
    text_to_phonemes_total (LipSync.clean_text s) (clean_text_chars s)
  rw [hnil] at hsum
  simp at hsum
  exact h (List.eq_nil_of_length_eq_zero hsum.symm)

/-! ## Rounding facts (`round(x, 3)` over exact rationals) -/

theorem round3_zero : LipSync.round3 0 = 0 := by
  simp [LipSync.round3]

theorem round3_mono {x y : ℚ} (h : x ≤ y) :
    LipSync.round3 x ≤ LipSync.round3 y := by
  unfold LipSync.round3
  have h1 : round (x * 1000) ≤ round (y * 1000) := by
    rw [round_eq, round_eq]
    exact Int.floor_mono (by linarith)
  have h2 : ((round (x * 1000) : ℤ) : ℚ) ≤ ((round (y * 1000) : ℤ) : ℚ) := by
    exact_mod_cast h1
  linarith

/-- Adding an exact number of thousandths commutes with the rounding. -/
theorem round3_add_thousandths (q : ℚ) (k : ℤ) :
    LipSync.round3 (q + (k : ℚ) / 1000) = LipSync.round3 q + (k : ℚ) / 1000 := by
  unfold LipSync.round3
  have harg : (q + (k : ℚ) / 1000) * 1000 = q * 1000 + (k : ℚ) := by
    field_simp
  rw [harg, round_add_int]
  push_cast
  ring

/-- Exactness of `round3` on integer multiples of one thousandth. -/
theorem round3_thousandths (k : ℤ) :
    LipSync.round3 ((k : ℚ) / 1000) = (k : ℚ) / 1000 := by
  have := round3_add_thousandths 0 k
  simpa [round3_zero] using this

/-- The rounded total differs from the true total by at most half a
thousandth. -/
theorem round3_close (q : ℚ) : |LipSync.round3 q - q| ≤ 1 / 2000 := by
  unfold LipSync.round3
  have h := abs_sub_round (q * 1000)
  rw [abs_sub_comm] at h
  have key : |(round (q * 1000) : ℚ) / 1000 - q| =
      |(round (q * 1000) : ℚ) - q * 1000| / 1000 := by
    rw [show (round (q * 1000) : ℚ) / 1000 - q =
        ((round (q * 1000) : ℚ) - q * 1000) / 1000 by ring]
    rw [abs_div]
    norm_num
  rw [key]
  linarith

/-! ## Structure of the emitted viseme sequence -/

theorem visemeLoop_ne_nil (d : ℚ) (ps : List String) (t : ℚ) :
    LipSync.visemeLoop d ps t ≠ [] := by
  cases ps <;> simp [LipSync.visemeLoop]

theorem visemeLoop_length (d : ℚ) (ps : List String) (t : ℚ) :
    (LipSync.visemeLoop d ps t).length = ps.length + 1 := by
  induction ps generalizing t with
  | nil => simp [LipSync.visemeLoop]
  | cons p rest ih => simp [LipSync.visemeLoop, ih]

theorem visemeLoop_head_start (d : ℚ) (ps : List String) (t : ℚ) :
    (LipSync.visemeLoop d ps t).head?.map LipSync.Viseme.start =
      some (LipSync.round3 t) := by
  cases ps <;> simp [LipSync.visemeLoop]

/-- Telescoping: the interval lengths before the trailing silence sum to
the rounded span of the consumed units. -/
theorem visemeLoop_telescope (d : ℚ) (ps : List String) (t : ℚ) :
    ((LipSync.visemeLoop d ps t).dropLast.map
        (fun v => v.stop - v.start)).sum =
      LipSync.round3 (t + (ps.length : ℚ) * d) - LipSync.round3 t := by
  induction ps generalizing t with
  | nil => simp [LipSync.visemeLoop]
  | cons p rest ih =>
      rw [LipSync.visemeLoop,
        List.dropLast_cons_of_ne_nil (visemeLoop_ne_nil d rest (t + d))]
      simp only [List.map_cons, List.sum_cons, ih (t + d)]
      have harg : t + d + (rest.length : ℚ) * d =
          t + ((rest.length + 1 : ℕ) : ℚ) * d := by
        push_cast
        ring
      rw [harg]
      simp only [List.length_cons]
      ring

theorem visemeLoop_chain (d : ℚ) (ps : List String) (t : ℚ) :
    List.Chain' (fun a b => a.stop = b.start) (LipSync.visemeLoop d ps t) := by
  induction ps generalizing t with
  | nil => simp [LipSync.visemeLoop]
  | cons p rest ih =>
      rw [LipSync.visemeLoop, List.chain'_cons']
      refine ⟨?_, ih (t + d)⟩
      intro y hy
      have hh := visemeLoop_head_start d rest (t + d)
      cases hv : (LipSync.visemeLoop d rest (t + d)).head? with
      | none =>
          rw [hv] at hy
          exact absurd hy (by simp)
      | some v =>
          rw [hv] at hh hy
          simp at hh
          simp only [Option.mem_def, Option.some.injEq] at hy
          subst hy
          exact hh.symm ▸ rfl

theorem visemeLoop_le (d : ℚ) (hd : 0 ≤ d) (ps : List String) (t : ℚ) :
    ∀ v ∈ LipSync.visemeLoop d ps t, v.start ≤ v.stop := by
  induction ps generalizing t with
  | nil =>
      intro v hv
      simp [LipSync.visemeLoop] at hv
      subst hv
      exact round3_mono (by linarith)
  | cons p rest ih =>
      intro v hv
      rw [LipSync.visemeLoop, List.mem_cons] at hv
      rcases hv with hv | hv
      · subst hv
        exact round3_mono (by linarith)
      · exact ih (t + d) v hv

theorem round3_idem (q : ℚ) :
    LipSync.round3 (LipSync.round3 q) = LipSync.round3 q := by
  unfold LipSync.round3
  exact round3_thousandths (round (q * 1000))

/-- Multiples of the 80ms fallback slice are exact thousandths. -/
theorem round3_mul_slice (i : ℕ) :
    LipSync.round3 ((i : ℚ) * (2/25)) = (i : ℚ) * (2/25) := by
  have h := round3_thousandths (80 * (i : ℤ))
  have harg : (((80 * (i : ℤ)) : ℤ) : ℚ) / 1000 = (i : ℚ) * (2/25) := by
    push_cast
    ring
  rwa [harg] at h

/-- Every boundary in the sequence is an exact rounded value. -/
theorem visemeLoop_rounded (d : ℚ) (ps : List String) (t : ℚ) :
    ∀ v ∈ LipSync.visemeLoop d ps t,
      LipSync.round3 v.start = v.start ∧ LipSync.round3 v.stop = v.stop := by
  induction ps generalizing t with
  | nil =>
      intro v hv
      simp [LipSync.visemeLoop] at hv
      subst hv
      exact ⟨round3_idem _, round3_idem _⟩
  | cons p rest ih =>
      intro v hv
      rw [LipSync.visemeLoop, List.mem_cons] at hv
      rcases hv with hv | hv
      · subst hv
        exact ⟨round3_idem _, round3_idem _⟩
      · exact ih (t + d) v hv

/-- With the 80ms fallback, every unit interval is exactly 2/25 s long. -/
theorem visemeLoop_fallback_slices (ps : List String) (i : ℕ) :
    ∀ v ∈ (LipSync.visemeLoop (2/25) ps ((i : ℚ) * (2/25))).dropLast,
      v.stop - v.start = 2/25 := by
  induction ps generalizing i with
  | nil => simp [LipSync.visemeLoop]
  | cons p rest ih =>
      intro v hv
      rw [LipSync.visemeLoop, List.dropLast_cons_of_ne_nil
        (visemeLoop_ne_nil _ rest _), List.mem_cons] at hv
      rcases hv with hv | hv
      · subst hv
        show LipSync.round3 ((i : ℚ) * (2/25) + 2/25) -
          LipSync.round3 ((i : ℚ) * (2/25)) = 2/25
        have hstep : (i : ℚ) * (2/25) + 2/25 = ((i + 1 : ℕ) : ℚ) * (2/25) := by
          push_cast
          ring
        rw [hstep, round3_mul_slice, round3_mul_slice]
        push_cast
        ring
      · have hstep : (i : ℚ) * (2/25) + 2/25 = ((i + 1 : ℕ) : ℚ) * (2/25) := by
          push_cast
          ring
        rw [hstep] at hv
        exact ih (i + 1) v hv

/-- Appending the fixed 0.2s (= 200 thousandths) commutes with rounding, so
the trailing silence is exactly 0.2s long. -/
theorem round3_add_fifth (x : ℚ) :
    LipSync.round3 (x + 1/5) = LipSync.round3 x + 1/5 := by
  have h := round3_add_thousandths x 200
  rw [show ((200 : ℤ) : ℚ) / 1000 = 1/5 by norm_num] at h
  exact h

theorem visemeLoop_getLast (d : ℚ) (ps : List String) (t : ℚ) :
    (LipSync.visemeLoop d ps t).getLast? =
      some ⟨LipSync.round3 (t + (ps.length : ℚ) * d),
        LipSync.round3 (t + (ps.length : ℚ) * d + 1/5), "sil",
        "viseme_sil"⟩ := by
  induction ps generalizing t with
  | nil => simp [LipSync.visemeLoop]
  | cons p rest ih =>
      rw [LipSync.visemeLoop]
      obtain ⟨x, xs, hx⟩ : ∃ x xs, LipSync.visemeLoop d rest (t + d) =
          x :: xs := by
        cases hc : LipSync.visemeLoop d rest (t + d) with
        | nil => exact absurd hc (visemeLoop_ne_nil d rest (t + d))
        | cons x xs => exact ⟨x, xs, rfl⟩
      rw [hx, List.getLast?_cons_cons, ← hx, ih (t + d)]
      have harg : t + d + (rest.length : ℚ) * d =
          t + ((rest.length + 1 : ℕ) : ℚ) * d := by
        push_cast
        ring
      rw [harg]
      rfl

/-- C3.  For non-empty normalized text and `audioDuration ≥ 0`: when the
duration is positive every one of the `n` units is allotted the equal slice
`audioDuration / n` (the sequence is the emission loop run with exactly that
slice) and the unit interval durations, excluding the trailing silence, sum
to the duration up to the 3-decimal rounding (exactly `round3 audioDuration`,
which is within 1/2000 of it); when the duration is zero every unit interval
is exactly 80ms (2/25 s) and the durations sum to `0.08 * unitCount`. -/
theorem claim3_time_allocation (text : String) (q : ℚ)
    (hne : LipSync.clean_text text ≠ []) (hq : 0 ≤ q) :
    (0 < q →
      LipSync.generate_visemes text q =
        LipSync.visemeLoop
          (q / ((LipSync.text_to_phonemes (LipSync.clean_text text)).length
            : ℚ))
          (LipSync.text_to_phonemes (LipSync.clean_text text)) 0 ∧
      ((LipSync.generate_visemes text q).dropLast.map
          (fun v => v.stop - v.start)).sum = LipSync.round3 q ∧
      |LipSync.round3 q - q| ≤ 1 / 2000) ∧
    (q = 0 →
      (∀ v ∈ (LipSync.generate_visemes text 0).dropLast,
          v.stop - v.start = 2/25) ∧
      ((LipSync.generate_visemes text 0).dropLast.map
          (fun v => v.stop - v.start)).sum =
        (2/25) * ((LipSync.text_to_phonemes
          (LipSync.clean_text text)).length : ℚ)) := by
  have hps := text_to_phonemes_ne_nil text hne
  have hlen : 0 < (LipSync.text_to_phonemes (LipSync.clean_text text)).length :=
    List.length_pos.mpr hps
  have hlenQ : ((LipSync.text_to_phonemes
      (LipSync.clean_text text)).length : ℚ) ≠ 0 := by
    exact_mod_cast Nat.pos_iff_ne_zero.mp hlen
  constructor
  · intro hq0
    have hgen : LipSync.generate_visemes text q =
        LipSync.visemeLoop
          (q / ((LipSync.text_to_phonemes (LipSync.clean_text text)).length
            : ℚ))
          (LipSync.text_to_phonemes (LipSync.clean_text text)) 0 := by
      unfold LipSync.generate_visemes LipSync.phonemes_to_visemes
      simp [List.isEmpty_iff, hps, hq0]
    refine ⟨hgen, ?_, round3_close q⟩
    rw [hgen, visemeLoop_telescope, zero_add, mul_comm,
      div_mul_cancel₀ q hlenQ, round3_zero, sub_zero]
  · intro hq0
    subst hq0
    have hgen : LipSync.generate_visemes text 0 =
        LipSync.visemeLoop (2/25)
          (LipSync.text_to_phonemes (LipSync.clean_text text)) 0 := by
      unfold LipSync.generate_visemes LipSync.phonemes_to_visemes
      simp [List.isEmpty_iff, hps]
    constructor
    · rw [hgen]
      simpa using visemeLoop_fallback_slices
        (LipSync.text_to_phonemes (LipSync.clean_text text)) 0
    · rw [hgen, visemeLoop_telescope, zero_add, round3_zero, sub_zero,
        round3_mul_slice]
      ring

/-- Witness for C3 at concrete inputs (`"cat"`, durations 3 and 0). -/
theorem claim3_time_allocation_witness :
    (LipSync.text_to_phonemes (LipSync.clean_text "cat")).length = 3 ∧
    ((LipSync.generate_visemes "cat" 3).dropLast.map
        (fun v => v.stop - v.start)).sum = LipSync.round3 3 ∧
    |LipSync.round3 3 - 3| ≤ 1 / 2000 ∧
    ((LipSync.generate_visemes "cat" 0).dropLast.map
        (fun v => v.stop - v.start)).sum =
      (2/25) * ((LipSync.text_to_phonemes
        (LipSync.clean_text "cat")).length : ℚ) := by
  have h3 := (claim3_time_allocation "cat" 3 (by decide) (by norm_num)).1
    (by norm_num)
  have h0 := (claim3_time_allocation "cat" 0 (by decide) le_rfl).2 rfl
  exact ⟨by decide, h3.2.1, h3.2.2, h0.2⟩

/-- C4.  Every generated sequence is a gapless chain of rounded, ascending
intervals: the first interval (if any) starts at 0, each interval's end is
the next one's start, boundaries are exact 3-decimal values, and a single
trailing silence interval of exactly 0.2s closes the sequence; text that
normalizes to the empty string yields the empty sequence. -/
theorem claim4_interval_structure (text : String) (q : ℚ) :
    (LipSync.clean_text text = [] → LipSync.generate_visemes text q = []) ∧
    List.Chain' (fun a b => a.stop = b.start)
      (LipSync.generate_visemes text q) ∧
    (∀ v ∈ LipSync.generate_visemes text q, v.start ≤ v.stop) ∧
    (∀ v ∈ LipSync.generate_visemes text q,
      LipSync.round3 v.start = v.start ∧ LipSync.round3 v.stop = v.stop) ∧
    (LipSync.clean_text text ≠ [] →
      (LipSync.generate_visemes text q).head?.map LipSync.Viseme.start =
        some 0 ∧
      (LipSync.generate_visemes text q).getLast?.map
        (fun v => (v.value, v.stop - v.start)) = some ("sil", 1/5) ∧
      (LipSync.generate_visemes text q).length =
        (LipSync.text_to_phonemes (LipSync.clean_text text)).length + 1) := by
  by_cases hps : LipSync.text_to_phonemes (LipSync.clean_text text) = []
  · have hgen : LipSync.generate_visemes text q = [] := by
      unfold LipSync.generate_visemes LipSync.phonemes_to_visemes
      simp [hps]
    refine ⟨fun _ => hgen, by simp [hgen], by simp [hgen], by simp [hgen],
      fun hne => absurd hps (text_to_phonemes_ne_nil text hne)⟩
  · have hgen : LipSync.generate_visemes text q =
        LipSync.visemeLoop
          (if q > 0 then
            q / ((LipSync.text_to_phonemes
              (LipSync.clean_text text)).length : ℚ)
           else 2/25)
          (LipSync.text_to_phonemes (LipSync.clean_text text)) 0 := by
      unfold LipSync.generate_visemes LipSync.phonemes_to_visemes
      simp [List.isEmpty_iff, hps]
    have hd : 0 ≤ (if q > 0 then
        q / ((LipSync.text_to_phonemes
          (LipSync.clean_text text)).length : ℚ)
       else 2/25) := by
      by_cases hq : q > 0
      · simp only [hq, if_true]
        positivity
      · simp only [hq, if_false]
        norm_num
    refine ⟨?_, ?_, ?_, ?_, ?_⟩
    · intro hcl
      exact absurd (by rw [hcl]; rfl :
        LipSync.text_to_phonemes (LipSync.clean_text text) = []) hps
    · rw [hgen]
      exact visemeLoop_chain _ _ _
    · rw [hgen]
      exact visemeLoop_le _ hd _ _
    · rw [hgen]
      exact visemeLoop_rounded _ _ _
    · intro _
      refine ⟨?_, ?_, ?_⟩
      · rw [hgen, visemeLoop_head_start, round3_zero]
      · rw [hgen, visemeLoop_getLast]
        simp only [Option.map]
        rw [round3_add_fifth]
        simp
      · rw [hgen, visemeLoop_length]

/-- Witness for C4 at concrete inputs (`""` and `"cat"`, duration 1). -/
theorem claim4_interval_structure_witness :
    LipSync.generate_visemes "" 1 = [] ∧
    (LipSync.generate_visemes "cat" 1).head?.map LipSync.Viseme.start =
      some 0 ∧
    (LipSync.generate_visemes "cat" 1).getLast?.map
      (fun v => (v.value, v.stop - v.start)) = some ("sil", 1/5) ∧
    (LipSync.generate_visemes "cat" 1).length = 4 := by
  have he := (claim4_interval_structure "" 1).1 (by decide)
  have hc := (claim4_interval_structure "cat" 1).2.2.2.2 (by decide)
  refine ⟨he, hc.1, hc.2.1, ?_⟩
  have h := hc.2.2
  rw [show (LipSync.text_to_phonemes (LipSync.clean_text "cat")).length = 3
    from by decide] at h
  exact h

/-! ## Association-list (Python dict) lemmas -/

theorem lookupA_insertA_self {α : Type} (l : List (String × α)) (k : String)
    (v : α) : lookupA (insertA l k v) k = some v := by
  induction l with
  | nil => simp [insertA, lookupA]
  | cons e rest ih =>
      by_cases h : e.1 = k
      · simp [insertA, h, lookupA]
      · simp [insertA, h, lookupA, ih]

theorem lookupA_insertA_ne {α : Type} (l : List (String × α)) (k k' : String)
    (v : α) (h : k ≠ k') : lookupA (insertA l k v) k' = lookupA l k' := by
  induction l with
  | nil => simp [insertA, lookupA, h]
  | cons e rest ih =>
      by_cases he : e.1 = k
      · simp [insertA, he, lookupA, h]
      · simp only [insertA, he, if_false, lookupA]
        by_cases he' : e.1 = k'
        · simp [he']
        · simp [he', ih]

theorem insertA_length {α : Type} (l : List (String × α)) (k : String)
    (v : α) :
    (insertA l k v).length =
      if (lookupA l k).isSome then l.length else l.length + 1 := by
  induction l with
  | nil => simp [insertA, lookupA]
  | cons e rest ih =>
      by_cases h : e.1 = k
      · simp [insertA, h, lookupA]
      · simp only [insertA, h, if_false, List.length_cons, lookupA, ih]
        by_cases h2 : (lookupA rest k).isSome <;> simp [h2]

theorem eraseA_length_of_mem {α : Type} (l : List (String × α)) (k : String)
    (e : α) (h : lookupA l k = some e) :
    (eraseA l k).length + 1 = l.length := by
  induction l with
  | nil => simp [lookupA] at h
  | cons p rest ih =>
      by_cases hp : p.1 = k
      · simp [eraseA, hp]
      · simp only [lookupA, hp, if_false] at h
        simp [eraseA, hp, ih h]

theorem lookupA_eraseA_self {α : Type} (l : List (String × α)) (k : String)
    (hnd : (l.map Prod.fst).Nodup) :
    lookupA (eraseA l k) k = none := by
  induction l with
  | nil => simp [eraseA, lookupA]
  | cons p rest ih =>
      simp only [List.map_cons, List.nodup_cons] at hnd
      by_cases hp : p.1 = k
      · subst hp
        cases hl : lookupA rest p.1 with
        | none => simpa [eraseA] using hl
        | some x =>
            exfalso
            apply hnd.1
            clear ih hnd
            induction rest with
            | nil => simp [lookupA] at hl
            | cons q rest' ih' =>
                by_cases hq : q.1 = p.1
                · simp [hq]
                · simp only [lookupA, hq, if_false] at hl
                  simp [ih' hl]
      · simp [eraseA, hp, lookupA, ih hnd.2]

theorem lookupA_of_mem_nodup {α : Type} (l : List (String × α))
    (k : String) (x : α) (hnd : (l.map Prod.fst).Nodup)
    (hm : (k, x) ∈ l) : lookupA l k = some x := by
  induction l with
  | nil => simp at hm
  | cons p rest ih =>
      simp only [List.map_cons, List.nodup_cons] at hnd
      rcases List.mem_cons.mp hm with hm | hm
      · subst hm
        simp [lookupA]
      · by_cases hp : p.1 = k
        · exfalso
          apply hnd.1
          rw [hp]
          exact List.mem_map.mpr ⟨(k, x), hm, rfl⟩
        · simp only [lookupA, hp, if_false]
          exact ih hnd.2 hm

theorem mem_insertA {α : Type} (l : List (String × α)) (k : String) (v : α) :
    ∀ q ∈ insertA l k v, q ∈ l ∨ q = (k, v) := by
  induction l with
  | nil =>
      intro q hq
      simp [insertA] at hq
      exact Or.inr hq
  | cons r rest ih =>
      intro q hq
      by_cases hr : r.1 = k
      · simp only [insertA, hr, if_true] at hq
        rcases List.mem_cons.mp hq with hq | hq
        · exact Or.inr hq
        · exact Or.inl (List.mem_cons_of_mem _ hq)
      · simp only [insertA, hr, if_false] at hq
        rcases List.mem_cons.mp hq with hq | hq
        · exact Or.inl (by simp [hq])
        · rcases ih q hq with h | h
          · exact Or.inl (List.mem_cons_of_mem _ h)
          · exact Or.inr h

theorem insertA_nodup {α : Type} (l : List (String × α)) (k : String)
    (v : α) (hnd : (l.map Prod.fst).Nodup) :
    ((insertA l k v).map Prod.fst).Nodup := by
  induction l with
  | nil => simp [insertA]
  | cons p rest ih =>
      simp only [List.map_cons, List.nodup_cons] at hnd
      by_cases hp : p.1 = k
      · subst hp
        simpa [insertA] using hnd
      · simp only [insertA, hp, if_false, List.map_cons, List.nodup_cons]
        refine ⟨?_, ih hnd.2⟩
        intro hmem
        rcases List.mem_map.mp hmem with ⟨q, hq, hq1⟩
        rcases mem_insertA rest k v q hq with h | h
        · exact hnd.1 (hq1 ▸ List.mem_map.mpr ⟨q, h, rfl⟩)
        · subst h
          exact hp hq1.symm

/-! ## Cache-level lemmas -/

theorem evictOldest_nodup (c : ResponseCache)
    (hnd : (c.cache.map Prod.fst).Nodup) :
    (c.evictOldest.cache.map Prod.fst).Nodup := by
  unfold ResponseCache.evictOldest
  by_cases he : c.cache.isEmpty
  · simpa [he] using hnd
  · simp only [he, if_false]
    exact ((List.filter_sublist _).map Prod.fst).nodup hnd

theorem set_fields (c : ResponseCache) (now : ℚ) (k v : String) :
    (c.set now k v).ttl_seconds = c.ttl_seconds ∧
    (c.set now k v).max_size = c.max_size ∧
    (c.set now k v).hits = c.hits ∧
    (c.set now k v).misses = c.misses := by
  unfold ResponseCache.set ResponseCache.evictOldest
  by_cases h : c.max_size ≤ c.cache.length <;>
    by_cases he : c.cache.isEmpty <;> simp [h, he]

theorem set_nodup (c : ResponseCache) (now : ℚ) (k v : String)
    (hnd : (c.cache.map Prod.fst).Nodup) :
    ((c.set now k v).cache.map Prod.fst).Nodup := by
  unfold ResponseCache.set
  by_cases h : c.max_size ≤ c.cache.length
  · simp only [h, if_true]
    exact insertA_nodup _ _ _ (evictOldest_nodup c hnd)
  · simp only [h, if_false]
    exact insertA_nodup _ _ _ hnd

theorem set_lookup (c : ResponseCache) (now : ℚ) (k v : String) :
    lookupA (c.set now k v).cache (MD5.md5Hex k) =
      some ⟨v, now, k.take 100⟩ := by
  unfold ResponseCache.set
  exact lookupA_insertA_self _ _ _

/-- A fresh entry (stored at `t`, read at `t'` with `t' - t < ttl`) is
returned and counted as a hit. -/
theorem get_set_fresh (c : ResponseCache) (t t' : ℚ) (k v : String)
    (h : t' - t < c.ttl_seconds) :
    ((c.set t k v).get t' k).1 = some v ∧
    ((c.set t k v).get t' k).2.cache = (c.set t k v).cache ∧
    ((c.set t k v).get t' k).2.hits = c.hits + 1 := by
  have hlk := set_lookup c t k v
  have hfields := set_fields c t k v
  simp only [ResponseCache.get, hlk, hfields.1]
  rw [if_pos h]
  exact ⟨rfl, rfl, by simp [hfields.2.2.1]⟩

/-- An expired entry (read at `t'` with `t' - t ≥ ttl`) yields a miss and
is deleted from the store. -/
theorem get_set_expired (c : ResponseCache) (t t' : ℚ) (k v : String)
    (hnd : (c.cache.map Prod.fst).Nodup) (hexp : c.ttl_seconds ≤ t' - t) :
    ((c.set t k v).get t' k).1 = none ∧
    ((c.set t k v).get t' k).2.misses = c.misses + 1 ∧
    lookupA ((c.set t k v).get t' k).2.cache (MD5.md5Hex k) = none ∧
    ((c.set t k v).get t' k).2.cache.length + 1 =
      (c.set t k v).cache.length := by
  have hlk := set_lookup c t k v
  have hfields := set_fields c t k v
  simp only [ResponseCache.get, hlk, hfields.1]
  rw [if_neg (not_lt.mpr hexp)]
  refine ⟨rfl, by simp [hfields.2.2.2], ?_, ?_⟩
  · exact lookupA_eraseA_self _ _ (set_nodup c t k v hnd)
  · exact eraseA_length_of_mem _ _ _ hlk

/-- C6.  `set(k, v)` followed by an immediate `get(k)` returns `v`; once
`ttl` seconds have elapsed since insertion the same `get` returns absent,
increments the miss counter, and deletes the expired entry (its key no
longer resolves and the entry count drops by one). -/
theorem claim6_ttl_roundtrip (c : ResponseCache) (t t' : ℚ) (k v : String)
    (hnd : (c.cache.map Prod.fst).Nodup) (httl : 0 < c.ttl_seconds)
    (hexp : c.ttl_seconds ≤ t' - t) :
    ((c.set t k v).get t k).1 = some v ∧
    ((c.set t k v).get t' k).1 = none ∧
    ((c.set t k v).get t' k).2.misses = c.misses + 1 ∧
    lookupA ((c.set t k v).get t' k).2.cache (MD5.md5Hex k) = none ∧
    ((c.set t k v).get t' k).2.cache.length + 1 =
      (c.set t k v).cache.length := by
  have hfresh := get_set_fresh c t t k v (by linarith)
  have hx := get_set_expired c t t' k v hnd hexp
  exact ⟨hfresh.1, hx.1, hx.2.1, hx.2.2.1, hx.2.2.2⟩

/-- Witness for C6 (`ttl = 3600`, store at 0, expired read at 3600). -/
theorem claim6_ttl_roundtrip_witness :
    (((ResponseCache.init 3600 1000).set 0 "hello" "world").get 0
      "hello").1 = some "world" ∧
    (((ResponseCache.init 3600 1000).set 0 "hello" "world").get 3600
      "hello").1 = none ∧
    (((ResponseCache.init 3600 1000).set 0 "hello" "world").get 3600
      "hello").2.misses = (ResponseCache.init 3600 1000).misses + 1 ∧
    lookupA ((((ResponseCache.init 3600 1000).set 0 "hello" "world").get
      3600 "hello").2.cache) (MD5.md5Hex "hello") = none ∧
    (((ResponseCache.init 3600 1000).set 0 "hello" "world").get 3600
      "hello").2.cache.length + 1 =
      ((ResponseCache.init 3600 1000).set 0 "hello" "world").cache.length :=
  claim6_ttl_roundtrip (ResponseCache.init 3600 1000) 0 3600 "hello" "world"
    (by simp [ResponseCache.init]) (by norm_num [ResponseCache.init])
    (by norm_num [ResponseCache.init])

/-- C7 counterexample.  The claim says `get` itself normalizes the key
(trim + lowercase) before hashing, so `get(" Hello")` and `get("hello")`
would address the same entry.  In the code `get` hashes the key verbatim:
after storing under the already-normalized key `"hello"`, `get "hello"`
hits but `get " Hello"` misses — they address different entries. -/
theorem claim7_counterexample :
    (((ResponseCache.init 3600 1000).set 0 "hello" "world").get 1
      "hello").1 = some "world" ∧
    (((ResponseCache.init 3600 1000).set 0 "hello" "world").get 1
      " Hello").1 = none := by decide

/-- C7 amended.  `ResponseCache.get` hashes the raw key without any
normalization; it is the orchestrator that computes the cache key as
`text.lower().strip()` before calling, so two texts that agree after
trim + lowercase address the same entry exactly when the caller passes the
normalized key (e.g. `" Hello"` and `"hello"` both normalize to
`"hello"`).  When the looked-up key is absent, or present but expired,
`get` returns absent and increments the miss counter. -/
theorem claim7_get_raw_key (c : ResponseCache) (now : ℚ)
    (t₁ t₂ : String) (hkey : cacheKeyOf t₁ = cacheKeyOf t₂) :
    c.get now (cacheKeyOf t₁) = c.get now (cacheKeyOf t₂) ∧
    cacheKeyOf " Hello" = "hello" ∧
    cacheKeyOf "hello" = "hello" ∧
    (∀ k, lookupA c.cache (MD5.md5Hex k) = none →
      (c.get now k).1 = none ∧ (c.get now k).2.misses = c.misses + 1) ∧
    (∀ k e, lookupA c.cache (MD5.md5Hex k) = some e →
      c.ttl_seconds ≤ now - e.timestamp →
      (c.get now k).1 = none ∧ (c.get now k).2.misses = c.misses + 1) := by
  refine ⟨by rw [hkey], by decide, by decide, ?_, ?_⟩
  · intro k hk
    simp only [ResponseCache.get, hk]
    simp
  · intro k e hk hexp
    simp only [ResponseCache.get, hk]
    rw [if_neg (not_lt.mpr hexp)]
    simp

/-- Witness for C7's amended statement at concrete inputs. -/
theorem claim7_get_raw_key_witness :
    (ResponseCache.init 3600 1000).get 0 (cacheKeyOf " Hello") =
      (ResponseCache.init 3600 1000).get 0 (cacheKeyOf "hello") ∧
    cacheKeyOf " Hello" = "hello" ∧
    ((ResponseCache.init 3600 1000).get 0 "absent").1 = none ∧
    ((ResponseCache.init 3600 1000).get 0 "absent").2.misses =
      (ResponseCache.init 3600 1000).misses + 1 := by
  have h := claim7_get_raw_key (ResponseCache.init 3600 1000) 0
    " Hello" "hello" (by decide)
  have habs := h.2.2.2.1 "absent" (by simp [ResponseCache.init, lookupA])
  exact ⟨h.1, h.2.1, habs.1, habs.2⟩

/-! ## Eviction lemmas (C5) -/

/-- Filtering out a duplicate-free batch of present keys removes exactly
one entry per key. -/
theorem filter_out_keys_length {α : Type} (l : List (String × α))
    (rem : List String) (hnd : (l.map Prod.fst).Nodup)
    (hrnd : rem.Nodup) (hsub : ∀ a ∈ rem, a ∈ l.map Prod.fst) :
    (l.filter (fun e => !rem.contains e.1)).length = l.length - rem.length := by
  have hsplit := List.length_eq_countP_add_countP
    (fun e : String × α => rem.contains e.1) l
  have hcong : List.countP
      (fun a : String × α => decide ¬(rem.contains a.1 = true)) l =
      List.countP (fun e : String × α => !rem.contains e.1) l := by
    refine List.countP_congr ?_
    intro x _
    by_cases h : rem.contains x.1 <;> simp [h]
  have hfilter : (l.filter (fun e => !rem.contains e.1)).length =
      List.countP (fun e : String × α => !rem.contains e.1) l :=
    (List.countP_eq_length_filter _ _).symm
  have hhit : List.countP (fun e : String × α => rem.contains e.1) l =
      rem.length := by
    have hmap : List.countP (fun k => rem.contains k) (l.map Prod.fst) =
        List.countP (fun e : String × α => rem.contains e.1) l := by
      rw [List.countP_map]
      rfl
    rw [← hmap, List.countP_eq_length_filter]
    have hp : ((l.map Prod.fst).filter (fun k => rem.contains k)).Perm rem := by
      refine (List.perm_ext_iff_of_nodup
        ((List.filter_sublist _).nodup hnd) hrnd).mpr ?_
      intro a
      simp only [List.mem_filter]
      constructor
      · intro ⟨_, hc⟩
        simpa using hc
      · intro ha
        exact ⟨hsub a ha, by simpa using ha⟩
    exact hp.length_eq
  omega

/-- Specification of `_evict_oldest` on a non-empty store with distinct
keys: exactly `max(1, count // 10)` entries disappear, and every evicted
entry is at least as old as every surviving entry. -/
theorem evictOldest_spec (c : ResponseCache)
    (hnd : (c.cache.map Prod.fst).Nodup) (hne : ¬c.cache.isEmpty) :
    c.evictOldest.cache.length =
      c.cache.length - max 1 (c.cache.length / 10) ∧
    ∀ e ∈ c.evictOldest.cache, ∀ e' ∈ c.cache,
      e' ∉ c.evictOldest.cache → e'.2.timestamp ≤ e.2.timestamp := by
  have hlen_pos : 0 < c.cache.length := by
    cases hc : c.cache with
    | nil => rw [hc] at hne; simp at hne
    | cons a l => simp [hc]
  have hcache : c.evictOldest.cache =
      c.cache.filter (fun e =>
        !(((c.cache.map Prod.fst).mergeSort
            (fun k₁ k₂ => decide (tsOf c.cache k₁ ≤ tsOf c.cache k₂))).take
          (max 1 (((c.cache.map Prod.fst).mergeSort
            (fun k₁ k₂ => decide (tsOf c.cache k₁ ≤ tsOf c.cache k₂))).length
              / 10))).contains e.1) := by
    simp only [ResponseCache.evictOldest]
    rw [if_neg hne]
  have hperm : (((c.cache.map Prod.fst).mergeSort
      (fun k₁ k₂ => decide (tsOf c.cache k₁ ≤ tsOf c.cache k₂)))).Perm
      (c.cache.map Prod.fst) := List.mergeSort_perm _ _
  have hslen : (((c.cache.map Prod.fst).mergeSort
      (fun k₁ k₂ => decide (tsOf c.cache k₁ ≤ tsOf c.cache k₂)))).length =
      c.cache.length := by
    rw [hperm.length_eq, List.length_map]
  have hsortnd := hperm.symm.nodup hnd
  have hn_le : max 1 (c.cache.length / 10) ≤ c.cache.length := by
    have := Nat.div_le_self c.cache.length 10
    omega
  have hrlen : ((((c.cache.map Prod.fst).mergeSort
      (fun k₁ k₂ => decide (tsOf c.cache k₁ ≤ tsOf c.cache k₂))).take
        (max 1 (c.cache.length / 10)))).length =
      max 1 (c.cache.length / 10) := by
    rw [List.length_take, hslen]
    omega
  have hrnd := (List.take_sublist (max 1 (c.cache.length / 10)) _).nodup
    hsortnd
  have hrsub : ∀ a ∈ (((c.cache.map Prod.fst).mergeSort
      (fun k₁ k₂ => decide (tsOf c.cache k₁ ≤ tsOf c.cache k₂))).take
        (max 1 (c.cache.length / 10))),
      a ∈ c.cache.map Prod.fst := by
    intro a ha
    exact hperm.mem_iff.mp ((List.take_sublist _ _).subset ha)
  constructor
  · rw [hcache, hslen, filter_out_keys_length _ _ hnd hrnd hrsub, hrlen]
  · intro e he e' he' hnotin
    rw [hcache, hslen] at he hnotin
    have hmem := List.mem_filter.mp he
    have hcontra : ((((c.cache.map Prod.fst).mergeSort
        (fun k₁ k₂ => decide (tsOf c.cache k₁ ≤ tsOf c.cache k₂))).take
          (max 1 (c.cache.length / 10)))).contains e'.1 = true := by
      by_contra hc
      exact hnotin (List.mem_filter.mpr ⟨he', by simpa using hc⟩)
    have he'_in : e'.1 ∈ (((c.cache.map Prod.fst).mergeSort
        (fun k₁ k₂ => decide (tsOf c.cache k₁ ≤ tsOf c.cache k₂))).take
          (max 1 (c.cache.length / 10))) := by
      simpa using hcontra
    have he_in_drop : e.1 ∈ (((c.cache.map Prod.fst).mergeSort
        (fun k₁ k₂ => decide (tsOf c.cache k₁ ≤ tsOf c.cache k₂))).drop
          (max 1 (c.cache.length / 10))) := by
      have he_keys : e.1 ∈ c.cache.map Prod.fst :=
        List.mem_map.mpr ⟨e, hmem.1, rfl⟩
      have he_sorted : e.1 ∈ ((c.cache.map Prod.fst).mergeSort
          (fun k₁ k₂ => decide (tsOf c.cache k₁ ≤ tsOf c.cache k₂))) :=
        hperm.mem_iff.mpr he_keys
      rw [← List.take_append_drop (max 1 (c.cache.length / 10))
        ((c.cache.map Prod.fst).mergeSort
          (fun k₁ k₂ => decide (tsOf c.cache k₁ ≤ tsOf c.cache k₂))),
        List.mem_append] at he_sorted
      rcases he_sorted with h | h
      · exact absurd h (by simpa using hmem.2)
      · exact h
    have hsorted : List.Pairwise
        (fun a b => (fun k₁ k₂ =>
          decide (tsOf c.cache k₁ ≤ tsOf c.cache k₂)) a b = true)
        ((c.cache.map Prod.fst).mergeSort
          (fun k₁ k₂ => decide (tsOf c.cache k₁ ≤ tsOf c.cache k₂))) := by
      refine List.sorted_mergeSort ?_ ?_ _
      · intro a b cc hab hbc
        simp only [decide_eq_true_eq] at *
        exact le_trans hab hbc
      · intro a b
        simp only [Bool.or_eq_true, decide_eq_true_eq]
        exact le_total _ _
    have hcross := (List.pairwise_append.mp (by
      rwa [List.take_append_drop] :
        List.Pairwise (fun a b => (fun k₁ k₂ =>
          decide (tsOf c.cache k₁ ≤ tsOf c.cache k₂)) a b = true)
        ((((c.cache.map Prod.fst).mergeSort
          (fun k₁ k₂ => decide (tsOf c.cache k₁ ≤ tsOf c.cache k₂))).take
            (max 1 (c.cache.length / 10))) ++
         (((c.cache.map Prod.fst).mergeSort
          (fun k₁ k₂ => decide (tsOf c.cache k₁ ≤ tsOf c.cache k₂))).drop
            (max 1 (c.cache.length / 10)))))).2.2
    have hle := hcross e'.1 he'_in e.1 he_in_drop
    simp only [decide_eq_true_eq] at hle
    have hts : tsOf c.cache e.1 = e.2.timestamp := by
      rw [tsOf, lookupA_of_mem_nodup c.cache e.1 e.2 hnd (by simpa using hmem.1)]
      rfl
    have hts' : tsOf c.cache e'.1 = e'.2.timestamp := by
      rw [tsOf, lookupA_of_mem_nodup c.cache e'.1 e'.2 hnd (by simpa using he')]
      rfl
    rw [hts, hts'] at hle
    exact hle

/-- C5 counterexample.  The claim quantifies over every cache state with
`count ≤ maxSize`; with `max_size = 0` the empty store satisfies the
hypothesis, but the eviction guard (`len >= max_size` → `_evict_oldest`,
which is a no-op on an empty dict) cannot make room, so the insert leaves
`count = 1 > maxSize`. -/
theorem claim5_counterexample :
    ¬(((ResponseCache.init 3600 0).set 0 "k" "v").cache.length ≤
      (ResponseCache.init 3600 0).max_size) := by decide

/-- C5 amended.  For `maxSize ≥ 1` and distinct stored keys: after any
`set` the entry count stays ≤ `maxSize` and the just-inserted entry is
present under its hashed key (never evicted by its own insertion); when the
count before insertion is ≥ `maxSize`, eviction removes exactly
`max(1, count // 10)` entries and every removed entry is at least as old
(by insertion timestamp) as every surviving one. -/
theorem claim5_eviction_bound (c : ResponseCache) (now : ℚ) (k v : String)
    (hnd : (c.cache.map Prod.fst).Nodup)
    (hle : c.cache.length ≤ c.max_size) (hpos : 1 ≤ c.max_size) :
    (c.set now k v).cache.length ≤ c.max_size ∧
    lookupA (c.set now k v).cache (MD5.md5Hex k) =
      some ⟨v, now, k.take 100⟩ ∧
    (c.max_size ≤ c.cache.length →
      c.evictOldest.cache.length =
        c.cache.length - max 1 (c.cache.length / 10) ∧
      ∀ e ∈ c.evictOldest.cache, ∀ e' ∈ c.cache,
        e' ∉ c.evictOldest.cache → e'.2.timestamp ≤ e.2.timestamp) := by
  have hins : ∀ (l : List (String × CacheEntry)) (e : CacheEntry),
      (insertA l (MD5.md5Hex k) e).length ≤ l.length + 1 := by
    intro l e
    rw [insertA_length]
    by_cases h : (lookupA l (MD5.md5Hex k)).isSome <;> simp [h]
  have hfull_ne : c.max_size ≤ c.cache.length → ¬c.cache.isEmpty := by
    intro hfull h
    rw [List.isEmpty_iff] at h
    rw [h] at hfull
    simp at hfull
    omega
  refine ⟨?_, set_lookup c now k v, fun hfull =>
    evictOldest_spec c hnd (hfull_ne hfull)⟩
  unfold ResponseCache.set
  by_cases hfull : c.max_size ≤ c.cache.length
  · simp only [hfull, if_true]
    have hev := (evictOldest_spec c hnd (hfull_ne hfull)).1
    have := hins c.evictOldest.cache ⟨v, now, k.take 100⟩
    have hmax1 : 1 ≤ max 1 (c.cache.length / 10) := le_max_left _ _
    omega
  · simp only [hfull, if_false]
    have := hins c.cache ⟨v, now, k.take 100⟩
    omega

/-- Witness for C5's amended statement: a full two-entry store accepts a
third insert, evicting exactly the oldest entry. -/
theorem claim5_eviction_bound_witness :
    (sampleCache.set 2 "c" "rc").cache.length ≤ sampleCache.max_size ∧
    lookupA (sampleCache.set 2 "c" "rc").cache (MD5.md5Hex "c") =
      some ⟨"rc", 2, "c".take 100⟩ ∧
    sampleCache.evictOldest.cache.length =
      sampleCache.cache.length - max 1 (sampleCache.cache.length / 10) := by
  have h := claim5_eviction_bound sampleCache 2 "c" "rc" (by decide)
    (by decide) (by decide)
  exact ⟨h.1, h.2.1, (h.2.2 (by decide)).1⟩

/-! ## Orchestrator lemmas -/

theorem get_absent (c : ResponseCache) (now : ℚ) (k : String)
    (h : lookupA c.cache (MD5.md5Hex k) = none) :
    c.get now k = (none, { c with misses := c.misses + 1 }) := by
  simp only [ResponseCache.get, h]

theorem get_set_fresh_eq (c : ResponseCache) (t t' : ℚ) (k v : String)
    (h : t' - t < c.ttl_seconds) :
    (c.set t k v).get t' k =
      (some v, { c.set t k v with hits := (c.set t k v).hits + 1 }) := by
  simp only [ResponseCache.get, set_lookup c t k v, (set_fields c t k v).1]
  rw [if_pos h]

/-- Shape of every processed turn: the five events are emitted in order for
some reply `resp`, and the connection's conversation is the old one with
the turn appended — unconditionally, cache hit or miss. -/
theorem processTextInput_shape (ad : Adapters)
    (convs : List (String × ConversationState)) (c : Option ResponseCache)
    (now : ℚ) (text cid : String) :
    ∃ resp,
      (processTextInput ad ⟨c, convs⟩ now text cid).events =
        [Event.emotionDetected (ad.emotionOf text).emotion
          (ad.emotionOf text).confidence,
         Event.responseText resp,
         Event.lipSyncData (LipSync.generate_visemes resp
           (ad.tts resp).duration) (ad.tts resp).duration,
         Event.audioData (b64String (ad.tts resp).audio) "mp3",
         Event.responseComplete] ∧
      lookupA (processTextInput ad ⟨c, convs⟩ now text cid).state.conversations
        cid = some (((lookupA convs cid).getD
          (ConversationState.init cid now)).add_turn now text resp
          (some (ad.emotionOf text).emotion)) := by
  cases c with
  | none =>
      refine ⟨ad.llm text ((lookupA convs cid).getD
        (ConversationState.init cid now)).history
        (ad.emotionOf text).emotion, ?_, ?_⟩
      · simp [processTextInput]
      · simp only [processTextInput]
        exact lookupA_insertA_self _ _ _
  | some c₀ =>
      rcases hget : c₀.get now (cacheKeyOf text) with ⟨r1, r2⟩
      cases r1 with
      | none =>
          refine ⟨ad.llm text ((lookupA convs cid).getD
            (ConversationState.init cid now)).history
            (ad.emotionOf text).emotion, ?_, ?_⟩
          · simp [processTextInput, hget]
          · simp only [processTextInput, hget]
            exact lookupA_insertA_self _ _ _
      | some cached =>
          refine ⟨cached, ?_, ?_⟩
          · simp [processTextInput, hget]
          · simp only [processTextInput, hget]
            exact lookupA_insertA_self _ _ _

/-- C9 counterexample.  A cache-hit turn (the trace shows no LLM call)
still mutates Conversation State: the history grows from 0 to 1 turns and
`last_activity` moves from 0 to the turn's time — the claim's
"left unchanged" is false on the code, which calls `add_turn`
unconditionally after the hit/miss branch. -/
theorem claim9_counterexample :
    (processTextInput sampleAdapters ⟨some hitCache, [("c1", emptyConv)]⟩
      1 "hello" "c1").calls.countP isLlmCall = 0 ∧
    (lookupA (processTextInput sampleAdapters
        ⟨some hitCache, [("c1", emptyConv)]⟩ 1 "hello" "c1").state.conversations
      "c1").map (fun cs => cs.history.length) = some 1 ∧
    (lookupA (processTextInput sampleAdapters
        ⟨some hitCache, [("c1", emptyConv)]⟩ 1 "hello" "c1").state.conversations
      "c1").map (fun cs => cs.last_activity) = some 1 ∧
    emptyConv.history.length = 0 ∧ emptyConv.last_activity = 0 := by decide

/-- C9 amended.  Conversation State is updated on every successfully
processed turn, cache hit or miss alike: the turn (user text, reply,
emotion label) is appended via `add_turn` and `last_activity` is set to
the turn's time; the reply appended is exactly the one emitted as the
`response_text` event. -/
theorem claim9_history_always_appended (ad : Adapters)
    (convs : List (String × ConversationState)) (c : Option ResponseCache)
    (now : ℚ) (text cid : String) :
    ∃ resp,
      lookupA (processTextInput ad ⟨c, convs⟩ now text cid).state.conversations
        cid = some (((lookupA convs cid).getD
          (ConversationState.init cid now)).add_turn now text resp
          (some (ad.emotionOf text).emotion)) ∧
      Event.responseText resp ∈
        (processTextInput ad ⟨c, convs⟩ now text cid).events ∧
      (((lookupA convs cid).getD (ConversationState.init cid now)).add_turn
        now text resp (some (ad.emotionOf text).emotion)).last_activity =
        now := by
  obtain ⟨resp, hev, hconv⟩ := processTextInput_shape ad convs c now text cid
  exact ⟨resp, hconv, by rw [hev]; simp, rfl⟩

/-- C8 counterexample.  A websocket turn with empty raw text is not
rejected: the orchestrator makes all three adapter calls (the first being
the Emotion Classifier on `""`), emits no error event, and runs the turn
to `response_complete` — contradicting "fails fast, no downstream calls". -/
theorem claim8_counterexample :
    (processTextInput sampleAdapters
      ⟨some (ResponseCache.init 3600 1000), []⟩ 0 "" "c1").calls.head? =
      some (AdapterCall.emotionCall "") ∧
    (processTextInput sampleAdapters
      ⟨some (ResponseCache.init 3600 1000), []⟩ 0 "" "c1").calls.length = 3 ∧
    (processTextInput sampleAdapters
      ⟨some (ResponseCache.init 3600 1000), []⟩ 0 ""
        "c1").events.countP isErrorEvent = 0 ∧
    (processTextInput sampleAdapters
      ⟨some (ResponseCache.init 3600 1000), []⟩ 0 "" "c1").events.getLast? =
      some Event.responseComplete := by decide

/-- C8 amended.  Only the stateless HTTP endpoint (`POST /api/chat` in
`backend/main.py`) fails fast on missing/empty text with a 400 client
error before any adapter work; the websocket orchestrator
(`process_text_input`) performs no empty-text validation and invokes the
Emotion Classifier (and the rest of the pipeline) even for `text = ""`. -/
theorem claim8_empty_text_validation (ad : Adapters)
    (st : OrchestratorState) (now : ℚ) (inc : Bool)
    (convs : List (String × ConversationState)) (c : Option ResponseCache)
    (cid : String) :
    chatEndpoint ad st now none inc = .error 400 ∧
    chatEndpoint ad st now (some "") inc = .error 400 ∧
    (processTextInput ad ⟨c, convs⟩ now "" cid).calls.head? =
      some (AdapterCall.emotionCall "") := by
  refine ⟨rfl, by simp [chatEndpoint], ?_⟩
  simp only [processTextInput]
  simp

/-- With no audio (`duration = 0`), every unit interval of the generated
sequence uses the 80ms fallback slice. -/
theorem generate_visemes_zero_slices (text : String) :
    ∀ v ∈ (LipSync.generate_visemes text 0).dropLast,
      v.stop - v.start = 2/25 := by
  by_cases hps : LipSync.text_to_phonemes (LipSync.clean_text text) = []
  · simp [LipSync.generate_visemes, LipSync.phonemes_to_visemes, hps]
  · have hgen : LipSync.generate_visemes text 0 =
        LipSync.visemeLoop (2/25)
          (LipSync.text_to_phonemes (LipSync.clean_text text)) 0 := by
      unfold LipSync.generate_visemes LipSync.phonemes_to_visemes
      simp [List.isEmpty_iff, hps]
    rw [hgen]
    simpa using visemeLoop_fallback_slices
      (LipSync.text_to_phonemes (LipSync.clean_text text)) 0

/-- C10 counterexample.  In the `app.py` websocket variant, a turn whose
synthesis produces empty bytes emits neither `lip_sync_data` nor
`audio_data` (the `if audio_data:` guard skips both) — only
`response_complete` follows the response text, contradicting the claim for
that turn-processing path. -/
theorem claim10_counterexample :
    AdapterCall.ttsCall "re: hi" ∈
      (AppVariant.processTurn sampleAdaptersNoAudio true ⟨[], 3600⟩ 0
        "hi").calls ∧
    (AppVariant.processTurn sampleAdaptersNoAudio true ⟨[], 3600⟩ 0
      "hi").events.countP isLipSyncEvent = 0 ∧
    (AppVariant.processTurn sampleAdaptersNoAudio true ⟨[], 3600⟩ 0
      "hi").events.countP isAudioDataEvent = 0 ∧
    (AppVariant.processTurn sampleAdaptersNoAudio true ⟨[], 3600⟩ 0
      "hi").events.getLast? = some Event.responseComplete := by decide

/-- C10 amended.  In the backend orchestrator a synthesis failure (empty
bytes, duration 0) does not abort the turn: `lip_sync_data` (visemes timed
with the 80ms-per-unit fallback), `audio_data` with an empty payload, and
`response_complete` are still emitted in that order.  In the `app.py`
websocket variant, by contrast, empty synthesized audio skips
`lip_sync_data` and `audio_data`; only `response_complete` is emitted. -/
theorem claim10_synthesis_failure (ad : Adapters)
    (hfail : ∀ s, ad.tts s = ⟨[], 0⟩) :
    (∀ (convs : List (String × ConversationState))
        (c : Option ResponseCache) (now : ℚ) (text cid : String),
      ∃ resp,
        (processTextInput ad ⟨c, convs⟩ now text cid).events =
          [Event.emotionDetected (ad.emotionOf text).emotion
            (ad.emotionOf text).confidence,
           Event.responseText resp,
           Event.lipSyncData (LipSync.generate_visemes resp 0) 0,
           Event.audioData "" "mp3",
           Event.responseComplete] ∧
        (∀ v ∈ (LipSync.generate_visemes resp 0).dropLast,
          v.stop - v.start = 2/25)) ∧
    (∀ (c : AppVariant.AppCache) (now : ℚ) (text : String),
      (AppVariant.processTurn ad true c now text).events.countP
        isLipSyncEvent = 0 ∧
      (AppVariant.processTurn ad true c now text).events.countP
        isAudioDataEvent = 0 ∧
      (AppVariant.processTurn ad true c now text).events.getLast? =
        some Event.responseComplete) := by
  constructor
  · intro convs c now text cid
    obtain ⟨resp, hev, _⟩ := processTextInput_shape ad convs c now text cid
    refine ⟨resp, ?_, generate_visemes_zero_slices resp⟩
    rw [hev, hfail resp]
    rfl
  · intro c now text
    rcases hc : c.get now text with _ | r
    · simp [AppVariant.processTurn, hc, hfail, List.getLast?_cons_cons,
        isLipSyncEvent, isAudioDataEvent]
    · simp [AppVariant.processTurn, hc, hfail, List.getLast?_cons_cons,
        isLipSyncEvent, isAudioDataEvent]

/-- Witness for C10 at concrete inputs (failing synthesizer, text `"hi"`). -/
theorem claim10_synthesis_failure_witness :
    (∃ resp,
      (processTextInput sampleAdaptersNoAudio
        ⟨some (ResponseCache.init 3600 1000), []⟩ 0 "hi" "c1").events =
        [Event.emotionDetected (sampleAdaptersNoAudio.emotionOf "hi").emotion
          (sampleAdaptersNoAudio.emotionOf "hi").confidence,
         Event.responseText resp,
         Event.lipSyncData (LipSync.generate_visemes resp 0) 0,
         Event.audioData "" "mp3",
         Event.responseComplete] ∧
      (∀ v ∈ (LipSync.generate_visemes resp 0).dropLast,
        v.stop - v.start = 2/25)) ∧
    ((AppVariant.processTurn sampleAdaptersNoAudio true ⟨[], 3600⟩ 0
        "hi").events.countP isLipSyncEvent = 0 ∧
     (AppVariant.processTurn sampleAdaptersNoAudio true ⟨[], 3600⟩ 0
        "hi").events.countP isAudioDataEvent = 0 ∧
     (AppVariant.processTurn sampleAdaptersNoAudio true ⟨[], 3600⟩ 0
        "hi").events.getLast? = some Event.responseComplete) := by
  have h := claim10_synthesis_failure sampleAdaptersNoAudio (fun _ => rfl)
  exact ⟨h.1 [] (some (ResponseCache.init 3600 1000)) 0 "hi" "c1",
    h.2 ⟨[], 3600⟩ 0 "hi"⟩

/-- C1.  For two consecutive turns whose texts normalize to the same cache
key (starting from a state where that key is absent and staying inside the
TTL window): the second turn makes no Language-Model call, the LLM is
invoked exactly once over the two turns, the Emotion Classifier exactly
twice, the second turn's `response_text` is the first turn's (cached)
reply, and both turns emit `emotion_detected`. -/
theorem claim1_cache_hit_skips_llm (ad : Adapters)
    (convs : List (String × ConversationState)) (c₀ : ResponseCache)
    (t₁ t₂ : ℚ) (text₁ text₂ cid : String)
    (hkey : cacheKeyOf text₁ = cacheKeyOf text₂)
    (habs : lookupA c₀.cache (MD5.md5Hex (cacheKeyOf text₁)) = none)
    (hwin : t₂ - t₁ < c₀.ttl_seconds) :
    ∀ r₁ r₂ reply,
      r₁ = processTextInput ad ⟨some c₀, convs⟩ t₁ text₁ cid →
      r₂ = processTextInput ad r₁.state t₂ text₂ cid →
      reply = ad.llm text₁ ((lookupA convs cid).getD
        (ConversationState.init cid t₁)).history
        (ad.emotionOf text₁).emotion →
      r₂.calls.countP isLlmCall = 0 ∧
      (r₁.calls ++ r₂.calls).countP isLlmCall = 1 ∧
      (r₁.calls ++ r₂.calls).countP isEmotionCall = 2 ∧
      Event.responseText reply ∈ r₁.events ∧
      Event.responseText reply ∈ r₂.events ∧
      Event.emotionDetected (ad.emotionOf text₁).emotion
        (ad.emotionOf text₁).confidence ∈ r₁.events ∧
      Event.emotionDetected (ad.emotionOf text₂).emotion
        (ad.emotionOf text₂).confidence ∈ r₂.events := by
  intro r₁ r₂ reply hr₁ hr₂ hreply
  have hget1 := get_absent c₀ t₁ (cacheKeyOf text₁) habs
  have hr₁calls : r₁.calls = [AdapterCall.emotionCall text₁,
      AdapterCall.llmCall text₁ ((lookupA convs cid).getD
        (ConversationState.init cid t₁)).history
        (ad.emotionOf text₁).emotion,
      AdapterCall.ttsCall reply] := by
    subst hr₁ hreply
    simp [processTextInput, hget1]
  have hr₁events : Event.responseText reply ∈ r₁.events ∧
      Event.emotionDetected (ad.emotionOf text₁).emotion
        (ad.emotionOf text₁).confidence ∈ r₁.events := by
    subst hr₁ hreply
    constructor <;> · simp [processTextInput, hget1]
  have hr₁state : r₁.state =
      ⟨some (({ c₀ with misses := c₀.misses + 1 } :
          ResponseCache).set t₁ (cacheKeyOf text₁) reply),
        insertA convs cid (((lookupA convs cid).getD
          (ConversationState.init cid t₁)).add_turn t₁ text₁ reply
          (some (ad.emotionOf text₁).emotion))⟩ := by
    subst hr₁ hreply
    simp [processTextInput, hget1]
  have hget2 : (({ c₀ with misses := c₀.misses + 1 } :
      ResponseCache).set t₁ (cacheKeyOf text₁) reply).get t₂
        (cacheKeyOf text₂) =
      (some reply,
        { ({ c₀ with misses := c₀.misses + 1 } :
            ResponseCache).set t₁ (cacheKeyOf text₁) reply with
          hits := (({ c₀ with misses := c₀.misses + 1 } :
            ResponseCache).set t₁ (cacheKeyOf text₁) reply).hits + 1 }) := by
    rw [← hkey]
    exact get_set_fresh_eq _ t₁ t₂ _ reply hwin
  have hr₂calls : r₂.calls = [AdapterCall.emotionCall text₂,
      AdapterCall.ttsCall reply] := by
    subst hr₂
    rw [hr₁state]
    simp [processTextInput, hget2]
  have hr₂events : Event.responseText reply ∈ r₂.events ∧
      Event.emotionDetected (ad.emotionOf text₂).emotion
        (ad.emotionOf text₂).confidence ∈ r₂.events := by
    subst hr₂
    rw [hr₁state]
    constructor <;> · simp [processTextInput, hget2]
  refine ⟨?_, ?_, ?_, hr₁events.1, hr₂events.1, hr₁events.2, hr₂events.2⟩
  · rw [hr₂calls]
    simp [List.countP_cons, isLlmCall]
  · rw [hr₁calls, hr₂calls]
    simp [List.countP_append, List.countP_cons, isLlmCall]
  · rw [hr₁calls, hr₂calls]
    simp [List.countP_append, List.countP_cons, isEmotionCall]

/-- Witness for C1: texts `" Hello"` and `"hello"` share the normalized
key `"hello"`; the two turns run at times 0 and 1 against an initially
empty enabled cache. -/
theorem claim1_cache_hit_skips_llm_witness :
    (processTextInput sampleAdapters
      (processTextInput sampleAdapters
        ⟨some (ResponseCache.init 3600 1000), []⟩ 0 " Hello" "c1").state
      1 "hello" "c1").calls.countP isLlmCall = 0 ∧
    ((processTextInput sampleAdapters
        ⟨some (ResponseCache.init 3600 1000), []⟩ 0 " Hello" "c1").calls ++
      (processTextInput sampleAdapters
        (processTextInput sampleAdapters
          ⟨some (ResponseCache.init 3600 1000), []⟩ 0 " Hello" "c1").state
        1 "hello" "c1").calls).countP isLlmCall = 1 ∧
    ((processTextInput sampleAdapters
        ⟨some (ResponseCache.init 3600 1000), []⟩ 0 " Hello" "c1").calls ++
      (processTextInput sampleAdapters
        (processTextInput sampleAdapters
          ⟨some (ResponseCache.init 3600 1000), []⟩ 0 " Hello" "c1").state
        1 "hello" "c1").calls).countP isEmotionCall = 2 ∧
    Event.responseText (sampleAdapters.llm " Hello"
        ((lookupA ([] : List (String × ConversationState)) "c1").getD
          (ConversationState.init "c1" 0)).history
        (sampleAdapters.emotionOf " Hello").emotion) ∈
      (processTextInput sampleAdapters
        ⟨some (ResponseCache.init 3600 1000), []⟩ 0 " Hello" "c1").events ∧
    Event.responseText (sampleAdapters.llm " Hello"
        ((lookupA ([] : List (String × ConversationState)) "c1").getD
          (ConversationState.init "c1" 0)).history
        (sampleAdapters.emotionOf " Hello").emotion) ∈
      (processTextInput sampleAdapters
        (processTextInput sampleAdapters
          ⟨some (ResponseCache.init 3600 1000), []⟩ 0 " Hello" "c1").state
        1 "hello" "c1").events ∧
    Event.emotionDetected (sampleAdapters.emotionOf " Hello").emotion
      (sampleAdapters.emotionOf " Hello").confidence ∈
      (processTextInput sampleAdapters
        ⟨some (ResponseCache.init 3600 1000), []⟩ 0 " Hello" "c1").events ∧
    Event.emotionDetected (sampleAdapters.emotionOf "hello").emotion
      (sampleAdapters.emotionOf "hello").confidence ∈
      (processTextInput sampleAdapters
        (processTextInput sampleAdapters
          ⟨some (ResponseCache.init 3600 1000), []⟩ 0 " Hello" "c1").state
        1 "hello" "c1").events :=
  claim1_cache_hit_skips_llm sampleAdapters [] (ResponseCache.init 3600 1000)
    0 1 " Hello" "hello" "c1" (by decide) rfl
    (by norm_num [ResponseCache.init]) _ _ _ rfl rfl rfl
